import Mathlib

/-!
OkapiLib: filters, chassis scales and the integrated chassis controller.

A shallow embedding of

* `include/okapi/filter/averageFilter.hpp`
* `src/api/filter/composableFilter.cpp`
* `src/api/chassis/controller/chassisScales.cpp`
* `src/api/chassis/controller/chassisControllerIntegrated.cpp`
* `src/impl/control/async/asyncControllerBuilder.cpp`

followed by the properties proved about them.

Conventions.  A C++ `double` is an element of a field `α` (the theorems take `α = ℝ`, the
definitions run over `ℚ`).  A method that mutates its object takes the object and returns the new
object next to the returned value.  Objects reached through a `shared_ptr` live in a store and are
named by their address.  A constructor that can throw returns `Except Exception _`.
-/

namespace okapi

/-! ## Definitions -/

/-! ### `AverageFilter<n>` -/

/-- Object state of `AverageFilter<n>`: the template parameter `n`, `std::array<double, n> data`,
`index` (declared `double` in the source, it only ever holds the integers `0 .. n - 1`) and
`output`. -/
structure AverageFilter (α : Type) where
  n : Nat
  data : List α
  index : Nat
  output : α

namespace AverageFilter

/-- Default constructor: `data{0}`, `index = 0`, `output = 0`. -/
def new (α : Type) [Zero α] (n : Nat) : AverageFilter α :=
  { n := n, data := List.replicate n 0, index := 0, output := 0 }

/-- Method `AverageFilter::filter`: store the reading at the cursor, advance the cursor with
wrap-around, then recompute the mean of all `n` slots. -/
def filter {α : Type} [Field α] (f : AverageFilter α) (ireading : α) : AverageFilter α × α :=
  -- data[index++] = ireading;
  let data := f.data.set f.index ireading
  let index := f.index + 1
  -- if (index >= n) index = 0;
  let index := if index ≥ f.n then 0 else index
  -- output = 0.0; for (size_t i = 0; i < n; i++) output += data[i];
  let output : α := (List.range f.n).foldl (fun acc i => acc + data.getD i 0) 0
  -- output /= (double)n;
  let output := output / (f.n : α)
  ({ f with data := data, index := index, output := output }, output)

/-- Method `AverageFilter::getOutput`. -/
def getOutput {α : Type} (f : AverageFilter α) : α := f.output

/-- Feed the readings one by one; returns the final object and the value returned by each call. -/
def filterAll {α : Type} [Field α] (f : AverageFilter α) : List α → AverageFilter α × List α
  | [] => (f, [])
  | x :: xs =>
    let r := f.filter x
    let rs := filterAll r.1 xs
    (rs.1, r.2 :: rs.2)

/-- Representation invariant used in the proofs: the buffer has `n` slots, the cursor is inside
it, and reading the buffer from the cursor onwards (with wrap-around) gives `hist`, the window
from its oldest to its newest entry. -/
structure Inv {α : Type} (f : AverageFilter α) (hist : List α) : Prop where
  len : f.data.length = f.n
  idx : f.index < f.n
  rot : f.data.rotate f.index = hist

end AverageFilter

/-! ### The `Filter` interface and the store of shared filters -/

/-- An object behind the abstract class `Filter`: its private state and its two virtual methods,
`filter` (new state and returned value) and `getOutput`. -/
structure Filter (σ α : Type) where
  state : σ
  filterFn : σ → α → σ × α
  getOutputFn : σ → α

/-- The contract of the `Filter` interface: `getOutput` returns what the last `filter` call
returned. -/
def Filter.Lawful {σ α : Type} (o : Filter σ α) : Prop :=
  ∀ (s : σ) (x : α), o.getOutputFn (o.filterFn s x).1 = (o.filterFn s x).2

/-- An `AverageFilter<n>` seen through the `Filter` interface. -/
def AverageFilter.toFilter {α : Type} [Field α] (f : AverageFilter α) :
    Filter (AverageFilter α) α :=
  { state := f, filterFn := AverageFilter.filter, getOutputFn := AverageFilter.getOutput }

/-- One executed call `p->filter(reading)` together with the value it returned. -/
structure FilterCall (α : Type) where
  stage : Nat
  reading : α
  result : α

/-- The filter objects that `shared_ptr<Filter>` values point to, by address, and the record of
every `->filter` call made on them so far (oldest first). -/
structure FilterStore (σ α : Type) where
  objs : Nat → Filter σ α
  calls : List (FilterCall α)

namespace FilterStore

/-- Call `p->filter(x)`: the object at `p` moves to its next state, the call is recorded. -/
def filter {σ α : Type} (w : FilterStore σ α) (p : Nat) (x : α) : FilterStore σ α × α :=
  let o := w.objs p
  let r := o.filterFn o.state x
  ({ objs := Function.update w.objs p { o with state := r.1 },
     calls := w.calls ++ [{ stage := p, reading := x, result := r.2 }] }, r.2)

/-- Call `p->getOutput()` (a `const` method: the store is unchanged). -/
def getOutput {σ α : Type} (w : FilterStore σ α) (p : Nat) : α :=
  (w.objs p).getOutputFn (w.objs p).state

/-- The nested call `fk->filter(... f2->filter(f1->filter(x)) ...)` of the specification, for the
stages `[f1, ..., fk]`: each call receives the value returned by the call before it. -/
def filterChain {σ α : Type} (w : FilterStore σ α) : List Nat → α → FilterStore σ α × α
  | [], x => (w, x)
  | p :: ps, x => filterChain (w.filter p x).1 ps (w.filter p x).2

/-- The propagation loop of `ComposableFilter::filter` written by recursion on the remaining
stages: every stage is called on `getOutput` of the stage before it. -/
def propagate {σ α : Type} (w : FilterStore σ α) (prev : Nat) : List Nat → FilterStore σ α
  | [] => w
  | p :: ps => propagate (w.filter p (w.getOutput prev)).1 p ps

end FilterStore

/-- The recorded calls form a chain that starts at `x`: the first call reads `x`, every later
call reads the value returned by the call before it. -/
def chained {α : Type} : α → List (FilterCall α) → Prop
  | _, [] => True
  | x, c :: cs => c.reading = x ∧ chained c.result cs

/-! ### `ComposableFilter` -/

/-- Object state of `ComposableFilter`: `std::vector<std::shared_ptr<Filter>> filters` and
`output` (its initial value `0` is the member initialiser of the class declaration). -/
structure ComposableFilter (α : Type) where
  filters : List Nat
  output : α

namespace ComposableFilter

/-- Constructor `ComposableFilter()`. -/
def new (α : Type) [Zero α] : ComposableFilter α := { filters := [], output := 0 }

/-- The constructors taking a list of filters: `push_back` of every element in turn. -/
def ofList {α : Type} [Zero α] (ilist : List Nat) : ComposableFilter α :=
  ilist.foldl (fun c elem => { c with filters := c.filters ++ [elem] }) (new α)

/-- Method `ComposableFilter::filter`. -/
def filter {σ α : Type} [Zero α] (c : ComposableFilter α) (w : FilterStore σ α) (ireading : α) :
    ComposableFilter α × FilterStore σ α × α :=
  -- if (filters.size() <= 0) return 0;
  if c.filters.length ≤ 0 then (c, w, 0)
  else
    -- filters.front()->filter(ireading);
    let w1 := (w.filter (c.filters.headD 0) ireading).1
    -- for (i = 1; i < filters.size(); i++) filters[i]->filter(filters[i - 1]->getOutput());
    let w2 := (List.range' 1 (c.filters.length - 1)).foldl
      (fun v i => (v.filter (c.filters.getD i 0) (v.getOutput (c.filters.getD (i - 1) 0))).1) w1
    -- output = filters.back()->getOutput(); return output;
    let output := w2.getOutput (c.filters.getLastD 0)
    ({ c with output := output }, w2, output)

/-- Method `ComposableFilter::getOutput`. -/
def getOutput {α : Type} (c : ComposableFilter α) : α := c.output

/-- Method `ComposableFilter::addFilter`. -/
def addFilter {α : Type} (c : ComposableFilter α) (ifilter : Nat) : ComposableFilter α :=
  { c with filters := c.filters ++ [ifilter] }

/-- Feed the readings one by one; returns the final object, the final store and the value
returned by each call. -/
def filterAll {σ α : Type} [Zero α] (c : ComposableFilter α) (w : FilterStore σ α) :
    List α → ComposableFilter α × FilterStore σ α × List α
  | [] => (c, w, [])
  | x :: xs =>
    let r := c.filter w x
    let rs := filterAll r.1 r.2.1 xs
    (rs.1, rs.2.1, r.2.2 :: rs.2.2)

end ComposableFilter

/-! ### Exceptions and physical quantities -/

/-- The C++ exceptions that can leave the constructors: `std::invalid_argument` with its
message, and `std::out_of_range` of `std::vector::at`. -/
inductive Exception where
  | invalid_argument (what : String)
  | out_of_range
  deriving DecidableEq

/-- Modelled from the spec: a length of the physical-unit library, which is absent from the
sources (§6: quantities support `.convert(unit) -> real` and arithmetic with dimensionless
scalars).  A length is held as its value in the base unit, the meter. -/
structure QLength (α : Type) where
  value : α

/-- Modelled from the spec: an angle of the physical-unit library (§6), held as its value in the
library's base unit of angle. -/
structure QAngle (α : Type) where
  value : α

/-- The unit constant `meter` and the literal `1_m`. -/
def meter {α : Type} [One α] : QLength α := { value := 1 }

/-- The unit constant `inch`, `0.0254` meters. -/
def inch {α : Type} [Field α] : QLength α := { value := 254 / 10000 }

namespace QLength

/-- Method `QLength::convert(unit)`: the quantity as a multiple of `unit`. -/
def convert {α : Type} [Div α] (q unit : QLength α) : α := q.value / unit.value

/-- Product `k * q` of a dimensionless scalar and a length. -/
def scale {α : Type} [Mul α] (k : α) (q : QLength α) : QLength α := { value := k * q.value }

end QLength

namespace QAngle

/-- Method `QAngle::convert(unit)`: the quantity as a multiple of `unit`. -/
def convert {α : Type} [Div α] (q unit : QAngle α) : α := q.value / unit.value

/-- Product `k * q` of a dimensionless scalar and an angle. -/
def scale {α : Type} [Mul α] (k : α) (q : QAngle α) : QAngle α := { value := k * q.value }

end QAngle

/-- Method `std::vector::at`: bounds-checked access. -/
def vecAt {β : Type} (vec : List β) (i : Nat) : Except Exception β :=
  match vec[i]? with
  | some x => Except.ok x
  | none => Except.error Exception.out_of_range

/-! ### `ChassisScales` -/

/-- Object state of `ChassisScales`.  The constant `1_pi` of the units library is the parameter
`pi` of the two constructors. -/
structure ChassisScales (α : Type) where
  wheelDiameter : QLength α
  wheelbaseWidth : QLength α
  middleWheelDistance : QLength α
  middleWheelDiameter : QLength α
  straight : α
  turn : α
  middle : α
  tpr : Int

namespace ChassisScales

/-- Method `ChassisScales::validateInput`: the lines written to the logger and the outcome. -/
def validateInput (inputSize : Nat) : List String × Except Exception Unit :=
  if inputSize < 2 then
    (["At least two measurements must be given to ChassisScales. Got " ++ toString inputSize
        ++ "measurements."],
      Except.error
        (Exception.invalid_argument "At least two measurements must be given to ChassisScales."))
  else ([], Except.ok ())

/-- Constructor `ChassisScales(initializer_list<QLength>, tpr, logger)`: the lines written to the
logger and either the exception thrown or the object built. -/
def fromMeasurements {α : Type} [Field α] (pi : α) (iwheelbase : List (QLength α))
    (itpr : Int) : List String × Except Exception (ChassisScales α) :=
  match validateInput iwheelbase.length with
  | (logged, Except.error e) => (logged, Except.error e)
  | (logged, Except.ok _) =>
    (logged, do
      let vec := iwheelbase
      let wheelDiameter ← vecAt vec 0
      let wheelbaseWidth ← vecAt vec 1
      let middleWheelDistance ←
        if vec.length ≥ 3 then vecAt vec 2 else pure (QLength.scale 0 meter)
      let middleWheelDiameter ←
        if vec.length ≥ 4 then vecAt vec 3 else pure wheelDiameter
      let straight := (itpr : α) / (wheelDiameter.convert meter * pi)
      let turn := wheelbaseWidth.convert meter / wheelDiameter.convert meter
      let middle := (itpr : α) / (middleWheelDiameter.convert meter * pi)
      pure { wheelDiameter := wheelDiameter, wheelbaseWidth := wheelbaseWidth,
             middleWheelDistance := middleWheelDistance,
             middleWheelDiameter := middleWheelDiameter,
             straight := straight, turn := turn, middle := middle, tpr := itpr })

/-- Constructor `ChassisScales(initializer_list<double>, tpr, logger)`: the lines written to the
logger and either the exception thrown or the object built. -/
def fromRatios {α : Type} [Field α] (pi : α) (iscales : List α) (itpr : Int) :
    List String × Except Exception (ChassisScales α) :=
  match validateInput iscales.length with
  | (logged, Except.error e) => (logged, Except.error e)
  | (logged, Except.ok _) =>
    if iscales.length = 3 then
      (logged ++ ["Middle wheel distance and scale must both be supplied, not just one."],
        Except.error (Exception.invalid_argument
          "Middle wheel distance and scale must both be supplied, not just one."))
    else
      (logged, do
        let vec := iscales
        let straight ← vecAt vec 0
        let turn ← vecAt vec 1
        let middle ← if vec.length ≥ 4 then vecAt vec 3 else pure straight
        let wheelDiameter := QLength.scale ((itpr : α) / (straight * pi)) meter
        let wheelbaseWidth := QLength.scale turn wheelDiameter
        let middleWheelDiameter := QLength.scale ((itpr : α) / (middle * pi)) meter
        let middleWheelDistance ←
          if vec.length ≥ 4 then (do let d ← vecAt vec 2; pure (QLength.scale d meter))
          else pure (QLength.scale 0 meter)
        pure { wheelDiameter := wheelDiameter, wheelbaseWidth := wheelbaseWidth,
               middleWheelDistance := middleWheelDistance,
               middleWheelDiameter := middleWheelDiameter,
               straight := straight, turn := turn, middle := middle, tpr := itpr })

end ChassisScales

/-! ### `ChassisControllerIntegrated` and its collaborators -/

/-- Which of the two position controllers a call goes to. -/
inductive Side where
  | left
  | right
  deriving DecidableEq

/-- The value `AbstractMotor::encoderUnits::degrees`, the only one the controller uses. -/
inductive encoderUnits where
  | degrees
  deriving DecidableEq

/-- A call made on a collaborator of the chassis controller: the logger, one of the two position
controllers, the chassis model, the rate utility, or the base class `ChassisController`.  A
logger line built with `std::to_string` keeps the number apart from the text around it. -/
inductive Event (α : Type) where
  | loggerInfo (text : String) (value : Option α) (tail : String)
  | loggerError (text : String)
  | reset (c : Side)
  | flipDisable (c : Side) (isDisabled : Bool)
  | setTarget (c : Side) (target : α)
  | isSettled (c : Side) (settled : Bool)
  | getSensorVals
  | modelStop
  | delayUntil (ms : Nat)
  | setGearing (gearset : Nat)
  | setEncoderUnits (units : encoderUnits)
  | baseStop

/-- Modelled from the spec: the position controller collaborator `AsyncPosIntegratedController`,
absent from the sources (§6: `reset()` clears accumulated state, `setTarget(ticks)` sets an
absolute target, `flipDisable(bool)` enables or disables background stepping).  The state keeps
the target, the disable flag and the number of resets. -/
structure AsyncPosIntegratedController (α : Type) where
  target : α
  disabled : Bool
  resets : Nat

namespace AsyncPosIntegratedController

/-- Method `reset()`. -/
def reset {α : Type} (p : AsyncPosIntegratedController α) : AsyncPosIntegratedController α :=
  { p with resets := p.resets + 1 }

/-- Method `flipDisable(bool)`. -/
def flipDisable {α : Type} (p : AsyncPosIntegratedController α) (isDisabled : Bool) :
    AsyncPosIntegratedController α :=
  { p with disabled := isDisabled }

/-- Method `setTarget(double)`. -/
def setTarget {α : Type} (p : AsyncPosIntegratedController α) (itarget : α) :
    AsyncPosIntegratedController α :=
  { p with target := itarget }

end AsyncPosIntegratedController

/-- Modelled from the spec: the chassis model collaborator `ChassisModel`, absent from the
sources (§6: `getSensorVals() -> (left, right)` absolute encoder readings, `stop()` halts the
actuator output).  The state keeps the two readings and the number of stops. -/
structure ChassisModel (α : Type) where
  sensorVals : α × α
  stops : Nat

/-- The type `AbstractMotor::GearsetRatioPair`: the internal gearset (an enumeration value) and
the external ratio. -/
structure GearsetRatioPair (α : Type) where
  internalGearset : Nat
  ratio : α

/-- Object state of `ChassisControllerIntegrated`, with the collaborators it owns or shares held
by value, and the calls made on collaborators so far (`events`, oldest first). -/
structure ChassisControllerIntegrated (α : Type) where
  model : ChassisModel α
  leftController : AsyncPosIntegratedController α
  rightController : AsyncPosIntegratedController α
  lastTarget : α
  gearRatio : α
  straightScale : α
  turnScale : α
  events : List (Event α)

namespace ChassisControllerIntegrated

/-- The message of the constructor for a zero gear ratio, logged and thrown. -/
def zeroGearRatioMessage : String :=
  "ChassisControllerIntegrated: The gear ratio cannot be zero! Check if you are "
    ++ "using integer division."

/-- The constructor: the calls made on collaborators and either the exception thrown or the
object built. -/
def new {α : Type} [Zero α] [DecidableEq α] (imodel : ChassisModel α)
    (ileftController irightController : AsyncPosIntegratedController α)
    (igearset : GearsetRatioPair α) (iscales : ChassisScales α) :
    List (Event α) × Except Exception (ChassisControllerIntegrated α) :=
  -- if (igearset.ratio == 0) { logger->error(...); throw std::invalid_argument(...); }
  if igearset.ratio = 0 then
    ([Event.loggerError zeroGearRatioMessage],
      Except.error (Exception.invalid_argument zeroGearRatioMessage))
  else
    -- setGearing(igearset.internalGearset); setEncoderUnits(AbstractMotor::encoderUnits::degrees);
    let evs := [Event.setGearing igearset.internalGearset,
      Event.setEncoderUnits encoderUnits.degrees]
    (evs, Except.ok
      { model := imodel, leftController := ileftController, rightController := irightController,
        lastTarget := 0, gearRatio := igearset.ratio, straightScale := iscales.straight,
        turnScale := iscales.turn, events := evs })

/-- Record a call on the logger, the rate utility or the base class. -/
def emit {α : Type} (c : ChassisControllerIntegrated α) (e : Event α) :
    ChassisControllerIntegrated α :=
  { c with events := c.events ++ [e] }

/-- Call `leftController->reset()` or `rightController->reset()`. -/
def reset {α : Type} (c : ChassisControllerIntegrated α) (s : Side) :
    ChassisControllerIntegrated α :=
  match s with
  | Side.left => { c with leftController := c.leftController.reset,
                          events := c.events ++ [Event.reset s] }
  | Side.right => { c with rightController := c.rightController.reset,
                           events := c.events ++ [Event.reset s] }

/-- Call `flipDisable(isDisabled)` on the left or the right controller. -/
def flipDisable {α : Type} (c : ChassisControllerIntegrated α) (s : Side) (isDisabled : Bool) :
    ChassisControllerIntegrated α :=
  match s with
  | Side.left => { c with leftController := c.leftController.flipDisable isDisabled,
                          events := c.events ++ [Event.flipDisable s isDisabled] }
  | Side.right => { c with rightController := c.rightController.flipDisable isDisabled,
                           events := c.events ++ [Event.flipDisable s isDisabled] }

/-- Call `setTarget(itarget)` on the left or the right controller. -/
def setTarget {α : Type} (c : ChassisControllerIntegrated α) (s : Side) (itarget : α) :
    ChassisControllerIntegrated α :=
  match s with
  | Side.left => { c with leftController := c.leftController.setTarget itarget,
                          events := c.events ++ [Event.setTarget s itarget] }
  | Side.right => { c with rightController := c.rightController.setTarget itarget,
                           events := c.events ++ [Event.setTarget s itarget] }

/-- Call `model->getSensorVals()`: entry `0` is the left reading, entry `1` the right one. -/
def getSensorVals {α : Type} (c : ChassisControllerIntegrated α) :
    ChassisControllerIntegrated α × (α × α) :=
  (c.emit Event.getSensorVals, c.model.sensorVals)

/-- Call `model->stop()`. -/
def modelStop {α : Type} (c : ChassisControllerIntegrated α) : ChassisControllerIntegrated α :=
  { c with model := { c.model with stops := c.model.stops + 1 },
           events := c.events ++ [Event.modelStop] }

/-- Method `moveDistanceAsync(QLength)`. -/
def moveDistanceAsync {α : Type} [Field α] (c : ChassisControllerIntegrated α)
    (itarget : QLength α) : ChassisControllerIntegrated α :=
  let c := c.emit (Event.loggerInfo "ChassisControllerIntegrated: moving "
    (some (itarget.convert meter)) " meters")
  let c := c.reset Side.left
  let c := c.reset Side.right
  let c := c.flipDisable Side.left false
  let c := c.flipDisable Side.right false
  let newTarget := itarget.convert meter * c.straightScale * c.gearRatio
  let c := c.emit (Event.loggerInfo "ChassisControllerIntegrated: moving "
    (some newTarget) " motor degrees")
  let r := c.getSensorVals
  let enc := r.2
  let c := r.1.setTarget Side.left (newTarget + enc.1)
  let c := c.setTarget Side.right (newTarget + enc.2)
  c

/-- Method `moveDistanceAsync(double)`. -/
def moveDistanceAsyncDouble {α : Type} [Field α] (c : ChassisControllerIntegrated α)
    (itarget : α) : ChassisControllerIntegrated α :=
  c.moveDistanceAsync (QLength.scale (itarget / c.straightScale) meter)

/-- Method `turnAngleAsync(QAngle)`; `degree` is the unit constant of the units library. -/
def turnAngleAsync {α : Type} [Field α] (degree : QAngle α)
    (c : ChassisControllerIntegrated α) (idegTarget : QAngle α) :
    ChassisControllerIntegrated α :=
  let c := c.emit (Event.loggerInfo "ChassisControllerIntegrated: turning "
    (some (idegTarget.convert degree)) " degrees")
  let c := c.reset Side.left
  let c := c.reset Side.right
  let c := c.flipDisable Side.left false
  let c := c.flipDisable Side.right false
  let newTarget := idegTarget.convert degree * c.turnScale * c.gearRatio
  let c := c.emit (Event.loggerInfo "ChassisControllerIntegrated: turning "
    (some newTarget) " motor degrees")
  let r := c.getSensorVals
  let enc := r.2
  let c := r.1.setTarget Side.left (newTarget + enc.1)
  let c := c.setTarget Side.right (-1 * newTarget + enc.2)
  c

/-- Method `turnAngleAsync(double)`. -/
def turnAngleAsyncDouble {α : Type} [Field α] (degree : QAngle α)
    (c : ChassisControllerIntegrated α) (idegTarget : α) : ChassisControllerIntegrated α :=
  c.turnAngleAsync degree (QAngle.scale (idegTarget / c.turnScale) degree)

/-- The loop of `waitUntilSettled`.  The list holds what `isSettled()` of the left and of the
right controller report at each successive evaluation of the loop condition; the right one is
asked only when the left one reported settled (`&&`).  The result is `none` when the list ends
before both report settled. -/
def waitLoop {α : Type} (c : ChassisControllerIntegrated α) :
    List (Bool × Bool) → Option (ChassisControllerIntegrated α)
  | [] => none
  | (l, r) :: rest =>
    let c := c.emit (Event.isSettled Side.left l)
    let c := if l then c.emit (Event.isSettled Side.right r) else c
    if !(l && r) then waitLoop (c.emit (Event.delayUntil 10)) rest
    else some c

/-- Method `waitUntilSettled()`. -/
def waitUntilSettled {α : Type} (c : ChassisControllerIntegrated α)
    (observations : List (Bool × Bool)) : Option (ChassisControllerIntegrated α) :=
  let c := c.emit (Event.loggerInfo "ChassisControllerIntegrated: Waiting to settle" none "")
  match c.waitLoop observations with
  | none => none
  | some c =>
    let c := c.flipDisable Side.left true
    let c := c.flipDisable Side.right true
    let c := c.modelStop
    some (c.emit
      (Event.loggerInfo "ChassisControllerIntegrated: Done waiting to settle" none ""))

/-- Method `stop()`: disable both controllers, then `ChassisController::stop()`. -/
def stop {α : Type} (c : ChassisControllerIntegrated α) : ChassisControllerIntegrated α :=
  let c := c.flipDisable Side.left true
  let c := c.flipDisable Side.right true
  c.emit Event.baseStop

/-- Method `moveDistance(QLength)`. -/
def moveDistance {α : Type} [Field α] (c : ChassisControllerIntegrated α) (itarget : QLength α)
    (observations : List (Bool × Bool)) : Option (ChassisControllerIntegrated α) :=
  (c.moveDistanceAsync itarget).waitUntilSettled observations

/-- Method `turnAngle(QAngle)`. -/
def turnAngle {α : Type} [Field α] (degree : QAngle α) (c : ChassisControllerIntegrated α)
    (idegTarget : QAngle α) (observations : List (Bool × Bool)) :
    Option (ChassisControllerIntegrated α) :=
  (c.turnAngleAsync degree idegTarget).waitUntilSettled observations

end ChassisControllerIntegrated

/-! ### Reading the trace of the chassis controller -/

namespace Event

/-- The call is `rate->delayUntil(...)`. -/
def isDelayUntil {α : Type} : Event α → Bool
  | delayUntil _ => true
  | _ => false

/-- The call is `flipDisable(true)` on the controller of side `s`. -/
def isDisable {α : Type} (s : Side) : Event α → Bool
  | flipDisable c true => decide (c = s)
  | _ => false

/-- The call is `model->stop()`. -/
def isModelStop {α : Type} : Event α → Bool
  | modelStop => true
  | _ => false

end Event

/-- The calls made by one evaluation of the loop condition of `waitUntilSettled`, for what the
two controllers report: the left controller is asked, the right one only if the left one
reported settled. -/
def pollEvents {α : Type} (o : Bool × Bool) : List (Event α) :=
  Event.isSettled Side.left o.1 :: (if o.1 then [Event.isSettled Side.right o.2] else [])

/-- A controller state used in the examples: scales 2 and 3, gear ratio 5, encoder readings 7
and 11, both controllers disabled with target 0. -/
def exampleChassis (α : Type) [Field α] : ChassisControllerIntegrated α :=
  { model := { sensorVals := (7, 11), stops := 0 },
    leftController := { target := 0, disabled := true, resets := 0 },
    rightController := { target := 0, disabled := true, resets := 0 },
    lastTarget := 0, gearRatio := 5, straightScale := 2, turnScale := 3, events := [] }

/-- The ratios owned by the controller: `straightScale`, `turnScale` and `gearRatio`. -/
def ChassisControllerIntegrated.ratios {α : Type} (c : ChassisControllerIntegrated α) :
    α × α × α :=
  (c.straightScale, c.turnScale, c.gearRatio)

/-! ### Stage vectors that hold `ComposableFilter` objects -/

/-- An entry of a stage vector, by the dynamic type of the object it points to: a filter object
of the store (of any class other than `ComposableFilter`), or a `ComposableFilter` object.  The
latter is what `AsyncControllerBuilder::filter(ComposableFilter)` makes with
`std::make_shared<ComposableFilter>(ifilter)`; being a fresh copy it is held in place, with its
own stage vector and output, while its stages stay in the store. -/
inductive Stage (α : Type) where
  | object (p : Nat)
  | composable (c : ComposableFilter α)

namespace Stage

/-- Virtual call `s->filter(x)`: the entry after the call, the store after it, the result. -/
def filter {σ α : Type} [Zero α] (s : Stage α) (w : FilterStore σ α) (x : α) :
    Stage α × FilterStore σ α × α :=
  match s with
  | object p => (object p, w.filter p x)
  | composable c => (composable (c.filter w x).1, (c.filter w x).2)

/-- Virtual call `s->getOutput()`. -/
def getOutput {σ α : Type} (s : Stage α) (w : FilterStore σ α) : α :=
  match s with
  | object p => w.getOutput p
  | composable c => c.getOutput

/-- The propagation loop of `ComposableFilter::filter` over such entries, written by recursion
on the remaining stages: the entries after the calls and the store after them. -/
def propagate {σ α : Type} [Zero α] (w : FilterStore σ α) (prev : Stage α) :
    List (Stage α) → List (Stage α) × FilterStore σ α
  | [] => ([], w)
  | s :: ss =>
    ((s.filter w (prev.getOutput w)).1
        :: (propagate (s.filter w (prev.getOutput w)).2.1 (s.filter w (prev.getOutput w)).1 ss).1,
      (propagate (s.filter w (prev.getOutput w)).2.1 (s.filter w (prev.getOutput w)).1 ss).2)

/-- The nested call `sk->filter(... s2->filter(s1->filter(x)) ...)` of the specification over
such entries: each call receives the value returned by the call before it.  The entries after
the calls, the store after them and the last returned value. -/
def filterChain {σ α : Type} [Zero α] (w : FilterStore σ α) :
    List (Stage α) → α → List (Stage α) × FilterStore σ α × α
  | [], x => ([], w, x)
  | s :: ss, x =>
    ((s.filter w x).1 :: (filterChain (s.filter w x).2.1 ss (s.filter w x).2.2).1,
      (filterChain (s.filter w x).2.1 ss (s.filter w x).2.2).2)

/-- The contract of the `Filter` interface for an entry: the object of the store obeys it; a
`ComposableFilter` obeys it when it has a stage, or has none and its output is `0` (then
`filter` returns `0` and `getOutput` returns the output). -/
def Lawful {σ α : Type} [Zero α] (w : FilterStore σ α) : Stage α → Prop
  | object p => (w.objs p).Lawful
  | composable c => c.filters ≠ [] ∨ c.output = 0

end Stage

/-- Object state of a `ComposableFilter` whose stage vector may hold `ComposableFilter` objects
next to other filters. -/
structure NestedComposableFilter (α : Type) where
  filters : List (Stage α)
  output : α

namespace NestedComposableFilter

/-- The constructors taking a list of filters: `push_back` of every element in turn; `output`
starts at `0`. -/
def ofList {α : Type} [Zero α] (ilist : List (Stage α)) : NestedComposableFilter α :=
  ilist.foldl (fun c elem => { c with filters := c.filters ++ [elem] })
    { filters := [], output := 0 }

/-- Method `ComposableFilter::filter`, with the virtual calls on the stages resolved by
`Stage.filter` and `Stage.getOutput`. -/
def filter {σ α : Type} [Zero α] (c : NestedComposableFilter α) (w : FilterStore σ α)
    (ireading : α) : NestedComposableFilter α × FilterStore σ α × α :=
  -- if (filters.size() <= 0) return 0;
  if c.filters.length ≤ 0 then (c, w, 0)
  else
    -- filters.front()->filter(ireading);
    let r := (c.filters.headD (Stage.object 0)).filter w ireading
    let st1 : List (Stage α) × FilterStore σ α := (c.filters.set 0 r.1, r.2.1)
    -- for (i = 1; i < filters.size(); i++) filters[i]->filter(filters[i - 1]->getOutput());
    let st2 := (List.range' 1 (c.filters.length - 1)).foldl
      (fun (st : List (Stage α) × FilterStore σ α) i =>
        let q := (st.1.getD i (Stage.object 0)).filter st.2
          ((st.1.getD (i - 1) (Stage.object 0)).getOutput st.2)
        (st.1.set i q.1, q.2.1)) st1
    -- output = filters.back()->getOutput(); return output;
    let output := (st2.1.getLastD (Stage.object 0)).getOutput st2.2
    ({ filters := st2.1, output := output }, st2.2, output)

/-- Method `ComposableFilter::getOutput`. -/
def getOutput {α : Type} (c : NestedComposableFilter α) : α := c.output

/-- Feed the readings one by one; returns the final object, the final store and the value
returned by each call. -/
def filterAll {σ α : Type} [Zero α] (c : NestedComposableFilter α) (w : FilterStore σ α) :
    List α → NestedComposableFilter α × FilterStore σ α × List α
  | [] => (c, w, [])
  | x :: xs =>
    let r := c.filter w x
    let rs := filterAll r.1 r.2.1 xs
    (rs.1, rs.2.1, r.2.2 :: rs.2.2)

end NestedComposableFilter

/-- An object behind the abstract class `IterativeController` (absent from the sources): its
private state and its virtual method `step`, which returns the new state and the output. -/
structure IterativeController (τ α : Type) where
  state : τ
  stepFn : τ → α → τ × α

namespace IterativeController

/-- Call `cnt->step(x)`. -/
def step {τ α : Type} (c : IterativeController τ α) (x : α) : IterativeController τ α × α :=
  ({ c with state := (c.stepFn c.state x).1 }, (c.stepFn c.state x).2)

end IterativeController

/-- What the step function of a built controller does, in order: the two `printf` lines, the
call `outFilter->filter(error)` with its result, and the call `step` on the controller at a
position of `m_controllers` with its argument and its result. -/
inductive StepEvent (α : Type) where
  | printLoop (error : α)
  | printPrev (prevOutput : α)
  | filter (error result : α)
  | step (position : Nat) (input output : α)

/-- Object state of `AsyncControllerBuilder`: `m_input` and `m_output` (null until set; a device
is named by a handle), `m_filters` and `m_controllers`. -/
structure AsyncControllerBuilder (τ α : Type) where
  m_input : Option Nat
  m_output : Option Nat
  m_filters : List (Stage α)
  m_controllers : List (IterativeController τ α)

/-- Modelled from the spec: the external `AsyncWrapper` (§2: it runs an iterative controller on
a background schedule), reduced to what `build()` hands to its constructor: the input, the
output, and the `IterativeLambdaBasedController` around the step lambda.  The lambda (`[=]`)
holds a copy of the pointer `outFilter` and the pointer `this` to the builder: the controllers
are not copied, they stay in the builder and are read through `this` at every tick.  `trace`
records what the lambda has done. -/
structure AsyncWrapper (α : Type) where
  input : Option Nat
  output : Option Nat
  outFilter : NestedComposableFilter α
  trace : List (StepEvent α)

namespace AsyncControllerBuilder

/-- The constructor: `m_filters` is seeded with a `PassthroughFilter`, made by
`std::make_unique<PassthroughFilter>()` at the address `passthrough` of the store. -/
def new {τ α : Type} (passthrough : Nat) : AsyncControllerBuilder τ α :=
  { m_input := none, m_output := none, m_filters := [Stage.object passthrough],
    m_controllers := [] }

/-- The overloads of `input`: `m_input` becomes a pointer to the given device. -/
def input {τ α : Type} (b : AsyncControllerBuilder τ α) (isensor : Nat) :
    AsyncControllerBuilder τ α :=
  { b with m_input := some isensor }

/-- The overloads `filter(EmaFilter)`, `filter(DemaFilter)` and
`filter(std::shared_ptr<Filter>)`: `push_back` of a pointer to the filter object (for the first
two, to the copy made by `std::make_shared`). -/
def filter {τ α : Type} (b : AsyncControllerBuilder τ α) (ifilter : Nat) :
    AsyncControllerBuilder τ α :=
  { b with m_filters := b.m_filters ++ [Stage.object ifilter] }

/-- Method `lambda`: `emplace_back` of an `IterativeLambdaBasedController`, a controller without
state whose `step` applies `istepFunction`. -/
def lambda {τ α : Type} [Inhabited τ] (b : AsyncControllerBuilder τ α)
    (istepFunction : α → α) : AsyncControllerBuilder τ α :=
  { b with m_controllers := b.m_controllers
      ++ [{ state := default, stepFn := fun s x => (s, istepFunction x) }] }

/-- The overloads of `output`: `m_output` becomes a pointer to the given motor. -/
def output {τ α : Type} (b : AsyncControllerBuilder τ α) (imotor : Nat) :
    AsyncControllerBuilder τ α :=
  { b with m_output := some imotor }

/-- Method `build()`.  The body has no test and no `throw`: the result is always the wrapper;
the type leaves room for an exception so that failure of `build()` can be stated.  Of the
builder only `m_input`, `m_output` and the stage vector `m_filters` are copied; the stage
objects stay shared. -/
def build {τ α : Type} [Zero α] (b : AsyncControllerBuilder τ α) :
    Except Exception (AsyncWrapper α) :=
  -- auto outFilter = std::make_shared<ComposableFilter>(m_filters);
  let outFilter := NestedComposableFilter.ofList b.m_filters
  Except.ok { input := b.m_input, output := b.m_output, outFilter := outFilter, trace := [] }

end AsyncControllerBuilder

namespace AsyncWrapper

/-- The step lambda that `build()` wraps, run for one tick on the store of filter objects and on
the builder that `this` points to, as that builder is at the tick: `none` for a builder that has
been destroyed (`this->m_controllers` then reads a dead object), `none` when
`m_controllers.front()` is called on an empty vector, else the wrapper, the builder (its
controllers stepped in place) and the store after the tick, and the returned output. -/
def stepFunction {σ τ α : Type} [Zero α] (a : AsyncWrapper α)
    (builder : Option (AsyncControllerBuilder τ α)) (w : FilterStore σ α) (error : α) :
    Option (AsyncWrapper α × AsyncControllerBuilder τ α × FilterStore σ α × α) :=
  match builder with
  | none => none
  | some b =>
    -- printf("loop %1.2f\n", error);
    let trace := a.trace ++ [StepEvent.printLoop error]
    -- this->m_controllers.front()
    match b.m_controllers.head? with
    | none => none
    | some front =>
      -- front->step(outFilter->filter(error)), the initial value of std::accumulate
      let f := a.outFilter.filter w error
      let trace := trace ++ [StepEvent.filter error f.2.2]
      let r := front.step f.2.2
      let trace := trace ++ [StepEvent.step 0 f.2.2 r.2]
      -- from std::next(begin()) to end(): printf("%1.2f\n", prevOutput); cnt->step(prevOutput)
      let acc := b.m_controllers.tail.foldl
        (fun (st : List (IterativeController τ α) × α × List (StepEvent α)) cnt =>
          let q := cnt.step st.2.1
          (st.1 ++ [q.1], q.2,
            st.2.2 ++ [StepEvent.printPrev st.2.1, StepEvent.step st.1.length st.2.1 q.2]))
        ([r.1], r.2, trace)
      some ({ a with outFilter := f.1, trace := acc.2.2 },
        { b with m_controllers := acc.1 }, f.2.1, acc.2.1)

end AsyncWrapper

/-! ## Theorems -/

/-! ### Lists -/

theorem foldl_add_getD_range {α : Type} [AddCommMonoid α] (l : List α) (a : α) :
    (List.range l.length).foldl (fun acc i => acc + l.getD i 0) a = a + l.sum := by
  induction l using List.reverseRecOn generalizing a with
  | nil => simp
  | append_singleton l x ih =>
    rw [List.length_append, List.length_singleton, List.range_succ, List.foldl_append]
    have h : ∀ b : α, (List.range l.length).foldl (fun acc i => acc + (l ++ [x]).getD i 0) b
        = (List.range l.length).foldl (fun acc i => acc + l.getD i 0) b := by
      intro b
      apply List.foldl_ext
      intro acc i hi
      rw [List.mem_range] at hi
      simp [List.getD_eq_getElem?_getD, List.getElem?_append_left hi]
    rw [h, ih]
    simp [List.getD_eq_getElem?_getD, add_assoc]

theorem rotate_set_succ {α : Type} (l : List α) (i : Nat) (x : α) (h : i < l.length) :
    (l.set i x).rotate (i + 1) = (l.rotate i).tail ++ [x] := by
  rw [List.rotate_eq_drop_append_take (by simp; omega), List.rotate_eq_drop_append_take (by omega)]
  have hs : l.set i x = l.take i ++ x :: l.drop (i + 1) := by
    rw [List.set_eq_take_append_cons_drop, if_pos h]
  have hlen : (l.take i).length = i := by simp; omega
  have h1 : (l.set i x).drop (i + 1) = l.drop (i + 1) := by
    rw [hs, List.drop_append_eq_append_drop, hlen]
    simp
  have h2 : (l.set i x).take (i + 1) = l.take i ++ [x] := by
    rw [hs, List.take_append_eq_append_take, hlen]
    simp
  rw [h1, h2, List.drop_eq_getElem_cons h, List.cons_append, List.tail_cons, List.append_assoc]

theorem window_snoc {α : Type} (hist xs : List α) (x : α) (h : 1 ≤ hist.length) :
    ((hist ++ xs).drop xs.length).tail ++ [x]
      = (hist ++ (xs ++ [x])).drop (xs ++ [x]).length := by
  have hle : xs.length + 1 ≤ (hist ++ xs).length := by
    rw [List.length_append]
    omega
  rw [← List.append_assoc, List.length_append, List.length_singleton,
    List.drop_append_of_le_length hle, List.tail_drop]

theorem window_full {α : Type} [Zero α] (n : Nat) (xs : List α) (h : n ≤ xs.length) :
    (List.replicate n (0 : α) ++ xs).drop xs.length = xs.drop (xs.length - n) := by
  rw [List.drop_append_eq_append_drop, List.drop_eq_nil_of_le (by simp [h])]
  simp

/-! ### `AverageFilter` -/

namespace AverageFilter

theorem Inv.init {α : Type} [Zero α] (n : Nat) (hn : 1 ≤ n) :
    Inv (AverageFilter.new α n) (List.replicate n 0) :=
  ⟨by simp [AverageFilter.new], by simp [AverageFilter.new]; omega, by simp [AverageFilter.new]⟩

theorem filter_n {α : Type} [Field α] (f : AverageFilter α) (x : α) : (f.filter x).1.n = f.n := rfl

theorem filter_output {α : Type} [Field α] (f : AverageFilter α) (x : α) :
    (f.filter x).1.output = (f.filter x).2 := rfl

theorem Inv.length_hist {α : Type} {f : AverageFilter α} {hist : List α} (h : Inv f hist) :
    hist.length = f.n := by
  rw [← h.rot, List.length_rotate, h.len]

/-- One `filter` call drops the oldest entry of the window and appends the reading. -/
theorem Inv.step {α : Type} [Field α] {f : AverageFilter α} {hist : List α} (h : Inv f hist)
    (x : α) : Inv (f.filter x).1 (hist.tail ++ [x]) := by
  obtain ⟨hlen, hidx, hrot⟩ := h
  have hrs := rotate_set_succ f.data f.index x (by omega)
  rw [hrot] at hrs
  refine ⟨by simp [AverageFilter.filter, hlen], ?_, ?_⟩
  · simp only [AverageFilter.filter]
    split <;> omega
  · simp only [AverageFilter.filter]
    split
    · have : f.index + 1 = (f.data.set f.index x).length := by simp; omega
      rw [← hrs, this, List.rotate_length, List.rotate_zero]
    · exact hrs

/-- One `filter` call returns the sum of the new window divided by `n`. -/
theorem Inv.step_value {α : Type} [Field α] {f : AverageFilter α} {hist : List α}
    (h : Inv f hist) (x : α) : (f.filter x).2 = (hist.tail ++ [x]).sum / (f.n : α) := by
  have h2 := h.step x
  have hs : (f.filter x).1.data.sum = (hist.tail ++ [x]).sum := by
    rw [← h2.rot]
    exact ((List.rotate_perm _ _).sum_eq).symm
  have hl : f.n = (f.data.set f.index x).length := by simp [h.len]
  rw [← hs]
  show (List.range f.n).foldl (fun acc i => acc + (f.data.set f.index x).getD i 0) 0 / (f.n : α)
    = (f.data.set f.index x).sum / (f.n : α)
  conv_lhs => rw [hl]
  rw [foldl_add_getD_range, zero_add, ← hl]

theorem filterAll_snoc {α : Type} [Field α] (f : AverageFilter α) (xs : List α) (x : α) :
    filterAll f (xs ++ [x])
      = (((filterAll f xs).1.filter x).1,
          (filterAll f xs).2 ++ [((filterAll f xs).1.filter x).2]) := by
  induction xs generalizing f with
  | nil => rfl
  | cons y ys ih => simp [filterAll, ih]

theorem filterAll_n {α : Type} [Field α] (f : AverageFilter α) (xs : List α) :
    (filterAll f xs).1.n = f.n := by
  induction xs generalizing f with
  | nil => rfl
  | cons y ys ih => simp [filterAll, ih, filter_n]

/-- After the readings `xs` the window is the last `n` entries of `hist ++ xs`. -/
theorem Inv.feed {α : Type} [Field α] {f : AverageFilter α} {hist : List α} (h : Inv f hist)
    (xs : List α) : Inv (filterAll f xs).1 ((hist ++ xs).drop xs.length) := by
  induction xs using List.reverseRecOn with
  | nil => simpa [AverageFilter.filterAll] using h
  | append_singleton ys y ih =>
    rw [filterAll_snoc, ← window_snoc hist ys y (by have := h.length_hist; have := h.idx; omega)]
    exact ih.step y

theorem Inv.feed_snoc_value {α : Type} [Field α] {f : AverageFilter α} {hist : List α}
    (h : Inv f hist) (xs : List α) (x : α) :
    (AverageFilter.filterAll f (xs ++ [x])).2.getLast?
        = some (((hist ++ (xs ++ [x])).drop (xs ++ [x]).length).sum / (f.n : α))
    ∧ (AverageFilter.filterAll f (xs ++ [x])).1.getOutput
        = ((hist ++ (xs ++ [x])).drop (xs ++ [x]).length).sum / (f.n : α) := by
  have hv := (h.feed xs).step_value x
  rw [window_snoc hist xs x (by have := h.length_hist; have := h.idx; omega), filterAll_n] at hv
  rw [filterAll_snoc]
  refine ⟨?_, ?_⟩
  · simp [hv]
  · show ((AverageFilter.filterAll f xs).1.filter x).1.output = _
    rw [filter_output, hv]

/-- Claim C1.  For every tap count `n ≥ 1` and every sequence `xs` of at least `n` real readings
fed one by one to a freshly constructed `AverageFilter<n>`, the value returned by the last
`filter` call, and the value of `getOutput` right after it, is the sum of the last `n` readings
of `xs` divided by `n`, that is their arithmetic mean; those last readings are exactly `n`. -/
theorem filter_eq_mean_last_n (n : Nat) (hn : 1 ≤ n) (xs : List ℝ) (hlen : n ≤ xs.length) :
    (filterAll (AverageFilter.new ℝ n) xs).2.getLast?
        = some ((xs.drop (xs.length - n)).sum / (n : ℝ))
    ∧ (filterAll (AverageFilter.new ℝ n) xs).1.getOutput
        = (xs.drop (xs.length - n)).sum / (n : ℝ)
    ∧ (xs.drop (xs.length - n)).length = n := by
  have hne : xs ≠ [] := by
    intro h; subst h; simp at hlen; omega
  rcases List.eq_nil_or_concat xs with h | ⟨ys, y, h⟩
  · exact absurd h hne
  · rw [List.concat_eq_append] at h
    subst h
    have h := (Inv.init (α := ℝ) n hn).feed_snoc_value ys y
    rw [window_full n _ hlen] at h
    exact ⟨h.1, h.2, by rw [List.length_drop]; omega⟩

/-- Witness of C1 at `n = 2` and the readings `1, 2, 3`: the output is `(2 + 3) / 2`. -/
theorem filter_eq_mean_last_n_witness :
    1 ≤ 2 ∧ 2 ≤ ([1, 2, 3] : List ℝ).length
    ∧ (filterAll (AverageFilter.new ℝ 2) [1, 2, 3]).1.getOutput = 5 / 2 := by
  refine ⟨by decide, by simp, ?_⟩
  have h := (filter_eq_mean_last_n 2 (by decide) [1, 2, 3] (by simp)).2.1
  rw [h]
  norm_num

end AverageFilter

/-! ### `ComposableFilter` -/

namespace FilterStore

/-- The index loop of `ComposableFilter::filter`, started at index `pre.length + 1`, is the
recursion `propagate` over the stages that remain. -/
theorem foldl_range_eq_propagate {σ α : Type} (ps pre : List Nat) (prev : Nat)
    (w : FilterStore σ α) :
    (List.range' (pre.length + 1) ps.length).foldl
      (fun v i => (v.filter ((pre ++ prev :: ps).getD i 0)
        (v.getOutput ((pre ++ prev :: ps).getD (i - 1) 0))).1) w
      = propagate w prev ps := by
  induction ps generalizing pre prev w with
  | nil => rfl
  | cons p ps ih =>
    rw [List.length_cons, List.range'_succ, List.foldl_cons]
    have h1 : (pre ++ prev :: p :: ps).getD (pre.length + 1) 0 = p := by
      rw [List.getD_eq_getElem?_getD, List.getElem?_append_right (by omega),
        Nat.add_sub_cancel_left]
      simp
    have h2 : (pre ++ prev :: p :: ps).getD (pre.length + 1 - 1) 0 = prev := by
      rw [List.getD_eq_getElem?_getD, List.getElem?_append_right (by omega),
        Nat.add_sub_cancel, Nat.sub_self]
      simp
    rw [h1, h2]
    have := ih (pre ++ [prev]) p (w.filter p (w.getOutput prev)).1
    simp only [List.length_append, List.length_singleton, List.append_assoc,
      List.singleton_append] at this
    exact this

theorem filter_lawful {σ α : Type} (w : FilterStore σ α) (p q : Nat) (x : α)
    (h : (w.objs q).Lawful) : ((w.filter p x).1.objs q).Lawful := by
  unfold FilterStore.filter
  by_cases hq : q = p
  · subst hq
    simpa [Filter.Lawful] using h
  · simpa [Function.update_noteq hq] using h

theorem getOutput_filter {σ α : Type} (w : FilterStore σ α) (p : Nat) (x : α)
    (h : (w.objs p).Lawful) : (w.filter p x).1.getOutput p = (w.filter p x).2 := by
  simp [FilterStore.filter, FilterStore.getOutput, h _ _]


theorem propagate_eq_filterChain {σ α : Type} (ps : List Nat) (w : FilterStore σ α) (prev : Nat)
    (hlaw : ∀ p ∈ ps, (w.objs p).Lawful) :
    propagate w prev ps = (filterChain w ps (w.getOutput prev)).1
    ∧ (propagate w prev ps).getOutput (ps.getLastD prev)
        = (filterChain w ps (w.getOutput prev)).2 := by
  induction ps generalizing w prev with
  | nil => exact ⟨rfl, rfl⟩
  | cons p ps ih =>
    have hp : (w.objs p).Lawful := hlaw p (List.mem_cons_self p ps)
    have hrest : ∀ q ∈ ps, (((w.filter p (w.getOutput prev)).1).objs q).Lawful :=
      fun q hq => filter_lawful w p q _ (hlaw q (List.mem_cons_of_mem p hq))
    have h := ih (w.filter p (w.getOutput prev)).1 p hrest
    rw [getOutput_filter w p _ hp] at h
    rw [List.getLastD_cons]
    exact h

theorem filterChain_calls {σ α : Type} (ps : List Nat) (w : FilterStore σ α) (x : α) :
    ∃ L : List (FilterCall α), (filterChain w ps x).1.calls = w.calls ++ L
      ∧ L.map FilterCall.stage = ps ∧ chained x L
      ∧ (L.map FilterCall.result).getLast?.getD x = (filterChain w ps x).2 := by
  induction ps generalizing w x with
  | nil => exact ⟨[], by simp [filterChain], rfl, trivial, rfl⟩
  | cons p ps ih =>
    obtain ⟨L, h1, h2, h3, h4⟩ := ih (w.filter p x).1 (w.filter p x).2
    refine ⟨{ stage := p, reading := x, result := (w.filter p x).2 } :: L, ?_, ?_, ?_, ?_⟩
    · rw [filterChain, h1]
      simp [FilterStore.filter]
    · simp [h2]
    · exact ⟨rfl, h3⟩
    · rw [List.map_cons, List.getLast?_cons, Option.getD_some]
      exact h4

end FilterStore

namespace ComposableFilter

theorem filter_cons {σ α : Type} [Zero α] (c : ComposableFilter α) (w : FilterStore σ α)
    (r : α) (p : Nat) (ps : List Nat) (hc : c.filters = p :: ps) :
    c.filter w r
      = ({ c with output := ((w.filter p r).1.propagate p ps).getOutput (ps.getLastD p) },
         (w.filter p r).1.propagate p ps,
         ((w.filter p r).1.propagate p ps).getOutput (ps.getLastD p)) := by
  have h := FilterStore.foldl_range_eq_propagate ps [] p (w.filter p r).1
  simp only [List.length_nil, List.nil_append, Nat.zero_add] at h
  unfold ComposableFilter.filter
  rw [hc, if_neg (by simp)]
  simp only [List.length_cons, Nat.add_sub_cancel, List.headD_cons, List.getLastD_cons]
  rw [h]

/-- Claim C2.  For every non-empty list of stages `[f1, ..., fk]` whose objects obey the `Filter`
contract (distinct or not) and every reading `r`, `ComposableFilter::filter(r)` returns what the
nested call `fk.filter(... f2.filter(f1.filter(r)) ...)` returns and leaves the stages in the
state that nested call leaves them in; `getOutput()` after the call is `fk.getOutput()` and is the
returned value; the calls made are one call per stage, in list order, the first on `r` and each
later one on the value the stage before it returned, and the last returned value is the result. -/
theorem filter_eq_nested_calls {σ α : Type} [Zero α] (c : ComposableFilter α)
    (w : FilterStore σ α) (r : α) (hne : c.filters ≠ [])
    (hlaw : ∀ p ∈ c.filters, (w.objs p).Lawful) :
    (c.filter w r).2.2 = (w.filterChain c.filters r).2
    ∧ (c.filter w r).2.1 = (w.filterChain c.filters r).1
    ∧ (c.filter w r).1.getOutput = (c.filter w r).2.1.getOutput (c.filters.getLast hne)
    ∧ (c.filter w r).1.getOutput = (c.filter w r).2.2
    ∧ (c.filter w r).1.filters = c.filters
    ∧ ∃ L : List (FilterCall α), (c.filter w r).2.1.calls = w.calls ++ L
        ∧ L.map FilterCall.stage = c.filters ∧ chained r L
        ∧ (L.map FilterCall.result).getLast? = some (c.filter w r).2.2 := by
  obtain ⟨p, ps, hc⟩ := List.exists_cons_of_ne_nil hne
  have hp : (w.objs p).Lawful := hlaw p (by simp [hc])
  have hrest : ∀ q ∈ ps, (((w.filter p r).1).objs q).Lawful :=
    fun q hq => FilterStore.filter_lawful w p q _ (hlaw q (by simp [hc, hq]))
  have h := FilterStore.propagate_eq_filterChain ps (w.filter p r).1 p hrest
  rw [FilterStore.getOutput_filter w p r hp] at h
  have hlast : c.filters.getLast hne = ps.getLastD p := by
    simp only [hc]
    exact List.getLast_eq_getLastD p ps _
  obtain ⟨L, h1, h2, h3, h4⟩ := FilterStore.filterChain_calls c.filters w r
  have hL : L ≠ [] := by
    intro hnil
    rw [hnil] at h2
    exact hne h2.symm
  rw [filter_cons c w r p ps hc, hlast]
  simp only [hc, FilterStore.filterChain] at h1 h2 h4 ⊢
  obtain ⟨hw, hv⟩ := h
  rw [hw] at hv ⊢
  refine ⟨hv, rfl, rfl, rfl, trivial, L, h1, h2, h3, ?_⟩
  rw [hv, ← h4, List.getLast?_eq_getLast _ (by simpa using hL)]
  rfl


theorem filterAll_no_stages {σ α : Type} [Zero α] (c : ComposableFilter α) (w : FilterStore σ α)
    (hc : c.filters = []) (rs : List α) :
    c.filterAll w rs = (c, w, List.replicate rs.length 0) := by
  induction rs with
  | nil => rfl
  | cons x xs ih =>
    have hx : c.filter w x = (c, w, 0) := by simp [ComposableFilter.filter, hc]
    simp [ComposableFilter.filterAll, hx, ih, List.replicate_succ]

/-- Witness of C2: two 2-tap average filters in a row, reading `4`; the result is `1`. -/
theorem filter_eq_nested_calls_witness :
    ({ filters := [0, 1], output := 0 } : ComposableFilter ℝ).filters ≠ []
    ∧ (({ filters := [0, 1], output := 0 } : ComposableFilter ℝ).filter
        ({ objs := fun _ => (AverageFilter.new ℝ 2).toFilter, calls := [] }) 4).2.2
      = (({ objs := fun _ => (AverageFilter.new ℝ 2).toFilter, calls := [] } :
          FilterStore (AverageFilter ℝ) ℝ).filterChain [0, 1] 4).2
    ∧ (({ filters := [0, 1], output := 0 } : ComposableFilter ℝ).filter
        ({ objs := fun _ => (AverageFilter.new ℝ 2).toFilter, calls := [] }) 4).2.2 = 1 := by
  refine ⟨by simp, ?_, ?_⟩
  · exact (filter_eq_nested_calls ({ filters := [0, 1], output := 0 } : ComposableFilter ℝ)
      ({ objs := fun _ => (AverageFilter.new ℝ 2).toFilter, calls := [] }) 4 (by simp)
      (fun _ _ _ _ => rfl)).1
  · simp [ComposableFilter.filter, FilterStore.filter, FilterStore.getOutput,
      AverageFilter.toFilter, AverageFilter.filter, AverageFilter.new, AverageFilter.getOutput,
      Function.update, List.range_succ, List.range'_succ]
    norm_num

/-- Claim C3.  A `ComposableFilter` with zero stages: after any sequence `rs` of earlier `filter`
calls the object and the store of filters are what they were before them, and for every reading
`r` the call `filter(r)` returns `0`, makes no call on any stage (the store, which records the
calls, is unchanged) and leaves the object unchanged. -/
theorem filter_no_stages {σ α : Type} [Zero α] (c : ComposableFilter α) (w : FilterStore σ α)
    (hc : c.filters = []) (rs : List α) (r : α) :
    (c.filterAll w rs).1 = c ∧ (c.filterAll w rs).2.1 = w
    ∧ (c.filterAll w rs).2.2 = List.replicate rs.length 0
    ∧ (c.filterAll w rs).1.filter (c.filterAll w rs).2.1 r = (c, w, 0) := by
  rw [filterAll_no_stages c w hc rs]
  exact ⟨rfl, rfl, rfl, by simp [ComposableFilter.filter, hc]⟩

/-- Witness of C3: the default-constructed filter after the readings `3, 7`, then reading `5`. -/
theorem filter_no_stages_witness :
    (ComposableFilter.new ℝ).filters = []
    ∧ ((ComposableFilter.new ℝ).filterAll
          ({ objs := fun _ => (AverageFilter.new ℝ 2).toFilter, calls := [] }) [3, 7]).1.filter
        ((ComposableFilter.new ℝ).filterAll
          ({ objs := fun _ => (AverageFilter.new ℝ 2).toFilter, calls := [] }) [3, 7]).2.1 5
      = (ComposableFilter.new ℝ,
          { objs := fun _ => (AverageFilter.new ℝ 2).toFilter, calls := [] }, 0) :=
  ⟨rfl, (filter_no_stages (ComposableFilter.new ℝ)
    ({ objs := fun _ => (AverageFilter.new ℝ 2).toFilter, calls := [] }) rfl [3, 7] 5).2.2.2⟩

end ComposableFilter

/-! ### `ChassisScales` -/

namespace ChassisScales

theorem fromMeasurements_pair {α : Type} [Field α] (pi : α) (d w : QLength α) (tpr : Int) :
    (fromMeasurements pi [d, w] tpr).2 = Except.ok
      { wheelDiameter := d, wheelbaseWidth := w, middleWheelDistance := QLength.scale 0 meter,
        middleWheelDiameter := d,
        straight := (tpr : α) / (d.convert meter * pi),
        turn := w.convert meter / d.convert meter,
        middle := (tpr : α) / (d.convert meter * pi), tpr := tpr } := by
  rfl

theorem fromRatios_pair {α : Type} [Field α] (pi : α) (s t : α) (tpr : Int) :
    (fromRatios pi [s, t] tpr).2 = Except.ok
      { wheelDiameter := QLength.scale ((tpr : α) / (s * pi)) meter,
        wheelbaseWidth := QLength.scale t (QLength.scale ((tpr : α) / (s * pi)) meter),
        middleWheelDistance := QLength.scale 0 meter,
        middleWheelDiameter := QLength.scale ((tpr : α) / (s * pi)) meter,
        straight := s, turn := t, middle := s, tpr := tpr } := by
  rfl

/-- Claim C4.  Round trip measurements, ratios, measurements over the reals: for every wheel
diameter `d` with non-zero value, every track width `w` and every `tpr` other than `0`, the
measurement-form constructor succeeds on `[d, w]`, the ratio-form constructor succeeds on the
`straight` and `turn` ratios of its result, and the second object has `wheelDiameter = d` and
`wheelbaseWidth = w`. -/
theorem measurements_ratios_roundtrip (d w : QLength ℝ) (tpr : Int) (hd : d.value ≠ 0)
    (ht : tpr ≠ 0) :
    ∃ s1 s2 : ChassisScales ℝ,
      (fromMeasurements Real.pi [d, w] tpr).2 = Except.ok s1
      ∧ (fromRatios Real.pi [s1.straight, s1.turn] tpr).2 = Except.ok s2
      ∧ s2.wheelDiameter = d ∧ s2.wheelbaseWidth = w := by
  have hpi : Real.pi ≠ 0 := Real.pi_ne_zero
  have htr : (tpr : ℝ) ≠ 0 := Int.cast_ne_zero.mpr ht
  refine ⟨_, _, fromMeasurements_pair Real.pi d w tpr, fromRatios_pair Real.pi _ _ tpr, ?_, ?_⟩
  · cases d with
    | mk dv =>
      simp only [QLength.scale, QLength.convert, meter] at hd ⊢
      congr 1
      field_simp
      ring
  · cases d with
    | mk dv =>
      cases w with
      | mk wv =>
        simp only [QLength.scale, QLength.convert, meter] at hd ⊢
        congr 1
        field_simp
        exact Or.inl (by ring)

/-- Witness of C4: diameter 4 in, track 12 in, 900 ticks per revolution. -/
theorem measurements_ratios_roundtrip_witness :
    (QLength.scale 4 inch : QLength ℝ).value ≠ 0 ∧ (900 : Int) ≠ 0
    ∧ ∃ s1 s2 : ChassisScales ℝ,
      (fromMeasurements Real.pi [QLength.scale 4 inch, QLength.scale 12 inch] 900).2
        = Except.ok s1
      ∧ (fromRatios Real.pi [s1.straight, s1.turn] 900).2 = Except.ok s2
      ∧ s2.wheelDiameter = QLength.scale 4 inch ∧ s2.wheelbaseWidth = QLength.scale 12 inch :=
  ⟨by norm_num [QLength.scale, inch], by decide,
    measurements_ratios_roundtrip (QLength.scale 4 inch) (QLength.scale 12 inch) 900
      (by norm_num [QLength.scale, inch]) (by decide)⟩

/-- Claim C5.  Round trip ratios, measurements, ratios over the reals: for every straight ratio
`s` other than `0`, every turn ratio `t` and every `tpr` other than `0`, the ratio-form
constructor succeeds on `[s, t]`, the measurement-form constructor succeeds on the
`wheelDiameter` and `wheelbaseWidth` of its result, and the second object has `straight = s`,
`turn = t` and `middle = s`. -/
theorem ratios_measurements_roundtrip (s t : ℝ) (tpr : Int) (hs : s ≠ 0) (ht : tpr ≠ 0) :
    ∃ s1 s2 : ChassisScales ℝ,
      (fromRatios Real.pi [s, t] tpr).2 = Except.ok s1
      ∧ (fromMeasurements Real.pi [s1.wheelDiameter, s1.wheelbaseWidth] tpr).2 = Except.ok s2
      ∧ s2.straight = s ∧ s2.turn = t ∧ s2.middle = s := by
  have hpi : Real.pi ≠ 0 := Real.pi_ne_zero
  have htr : (tpr : ℝ) ≠ 0 := Int.cast_ne_zero.mpr ht
  refine ⟨_, _, fromRatios_pair Real.pi s t tpr, fromMeasurements_pair Real.pi _ _ tpr,
    ?_, ?_, ?_⟩
  · simp only [QLength.scale, QLength.convert, meter]
    field_simp
    ring
  · simp only [QLength.scale, QLength.convert, meter]
    field_simp
  · simp only [QLength.scale, QLength.convert, meter]
    field_simp
    ring

/-- Witness of C5: straight ratio 2, turn ratio 3, 360 ticks per revolution. -/
theorem ratios_measurements_roundtrip_witness :
    (2 : ℝ) ≠ 0 ∧ (360 : Int) ≠ 0
    ∧ ∃ s1 s2 : ChassisScales ℝ,
      (fromRatios Real.pi [2, 3] 360).2 = Except.ok s1
      ∧ (fromMeasurements Real.pi [s1.wheelDiameter, s1.wheelbaseWidth] 360).2 = Except.ok s2
      ∧ s2.straight = 2 ∧ s2.turn = 3 ∧ s2.middle = 2 :=
  ⟨by norm_num, by decide, ratios_measurements_roundtrip 2 3 360 (by norm_num) (by decide)⟩

theorem fromMeasurements_short {α : Type} [Field α] (pi : α) (ms : List (QLength α))
    (tpr : Int) (h : ms.length < 2) :
    (fromMeasurements pi ms tpr).2 = Except.error
      (Exception.invalid_argument "At least two measurements must be given to ChassisScales.") := by
  simp [fromMeasurements, validateInput, h]

theorem validateInput_ok (n : Nat) (h : 2 ≤ n) : validateInput n = ([], Except.ok ()) := by
  unfold validateInput
  rw [if_neg (by omega)]

theorem fromMeasurements_long {α : Type} [Field α] (pi : α) (ms : List (QLength α))
    (tpr : Int) (h : 2 ≤ ms.length) :
    ∃ s : ChassisScales α, (fromMeasurements pi ms tpr).2 = Except.ok s := by
  unfold fromMeasurements
  rw [validateInput_ok _ h]
  match ms, h with
  | [a, b], _ => exact ⟨_, rfl⟩
  | [a, b, c], _ => exact ⟨_, rfl⟩
  | a :: b :: c :: d :: rest, _ =>
    simp only [vecAt, List.length_cons, ge_iff_le, Nat.le_add_left, if_true,
      List.getElem?_cons_zero, List.getElem?_cons_succ]
    exact ⟨_, rfl⟩

/-- Claim C6.  The measurement-form constructor throws `std::invalid_argument` exactly when fewer
than two measurements are supplied (no object is built then), and builds an object exactly when
two or more are supplied, three included. -/
theorem fromMeasurements_throws_iff {α : Type} [Field α] (pi : α) (ms : List (QLength α))
    (tpr : Int) :
    ((∃ e : Exception, (fromMeasurements pi ms tpr).2 = Except.error e) ↔ ms.length < 2)
    ∧ ((fromMeasurements pi ms tpr).2 = Except.error
        (Exception.invalid_argument "At least two measurements must be given to ChassisScales.")
        ↔ ms.length < 2)
    ∧ ((∃ s : ChassisScales α, (fromMeasurements pi ms tpr).2 = Except.ok s) ↔ 2 ≤ ms.length) := by
  by_cases h : ms.length < 2
  · have he := fromMeasurements_short pi ms tpr h
    refine ⟨⟨fun _ => h, fun _ => ⟨_, he⟩⟩, ⟨fun _ => h, fun _ => he⟩, ⟨?_, fun h2 => by omega⟩⟩
    rintro ⟨s, hs⟩
    rw [he] at hs
    cases hs
  · obtain ⟨s, hs⟩ := fromMeasurements_long pi ms tpr (by omega)
    refine ⟨⟨?_, fun h2 => absurd h2 h⟩, ⟨?_, fun h2 => absurd h2 h⟩,
      ⟨fun _ => by omega, fun _ => ⟨s, hs⟩⟩⟩
    · rintro ⟨e, he⟩
      rw [hs] at he
      cases he
    · intro he
      rw [hs] at he
      cases he

theorem fromRatios_short {α : Type} [Field α] (pi : α) (rs : List α) (tpr : Int)
    (h : rs.length < 2) :
    (fromRatios pi rs tpr).2 = Except.error
      (Exception.invalid_argument "At least two measurements must be given to ChassisScales.") := by
  simp [fromRatios, validateInput, h]

theorem fromRatios_three {α : Type} [Field α] (pi : α) (rs : List α) (tpr : Int)
    (h : rs.length = 3) :
    (fromRatios pi rs tpr).2 = Except.error (Exception.invalid_argument
      "Middle wheel distance and scale must both be supplied, not just one.") := by
  unfold fromRatios
  rw [validateInput_ok _ (by omega)]
  simp [h]

theorem fromRatios_long {α : Type} [Field α] (pi : α) (rs : List α) (tpr : Int)
    (h : rs.length = 2 ∨ 4 ≤ rs.length) :
    ∃ s : ChassisScales α, (fromRatios pi rs tpr).2 = Except.ok s := by
  unfold fromRatios
  rw [validateInput_ok _ (by omega)]
  match rs, h with
  | [a, b], _ => exact ⟨_, rfl⟩
  | a :: b :: c :: d :: rest, _ =>
    simp only [vecAt, List.length_cons, ge_iff_le, Nat.le_add_left, if_true,
      List.getElem?_cons_zero, List.getElem?_cons_succ]
    rw [if_neg (by omega)]
    exact ⟨_, rfl⟩

/-- Claim C7.  The ratio-form constructor throws, and what it throws is `std::invalid_argument`,
exactly when the number of supplied values is less than 2 or is 3; it builds an object exactly
when the number is 2 or is 4 or more. -/
theorem fromRatios_throws_iff {α : Type} [Field α] (pi : α) (rs : List α) (tpr : Int) :
    ((∃ e : Exception, (fromRatios pi rs tpr).2 = Except.error e)
        ↔ (rs.length < 2 ∨ rs.length = 3))
    ∧ ((∃ what : String, (fromRatios pi rs tpr).2
          = Except.error (Exception.invalid_argument what))
        ↔ (rs.length < 2 ∨ rs.length = 3))
    ∧ ((∃ s : ChassisScales α, (fromRatios pi rs tpr).2 = Except.ok s)
        ↔ (rs.length = 2 ∨ 4 ≤ rs.length)) := by
  by_cases h : rs.length < 2 ∨ rs.length = 3
  · have he : ∃ what : String, (fromRatios pi rs tpr).2
        = Except.error (Exception.invalid_argument what) := by
      rcases h with h | h
      · exact ⟨_, fromRatios_short pi rs tpr h⟩
      · exact ⟨_, fromRatios_three pi rs tpr h⟩
    obtain ⟨what, hw⟩ := he
    refine ⟨⟨fun _ => h, fun _ => ⟨_, hw⟩⟩, ⟨fun _ => h, fun _ => ⟨_, hw⟩⟩,
      ⟨?_, fun h2 => by omega⟩⟩
    rintro ⟨s, hs⟩
    rw [hw] at hs
    cases hs
  · obtain ⟨s, hs⟩ := fromRatios_long pi rs tpr (by omega)
    refine ⟨⟨?_, fun h2 => absurd h2 h⟩, ⟨?_, fun h2 => absurd h2 h⟩,
      ⟨fun _ => by omega, fun _ => ⟨s, hs⟩⟩⟩
    · rintro ⟨e, he⟩
      rw [hs] at he
      cases he
    · rintro ⟨e, he⟩
      rw [hs] at he
      cases he

end ChassisScales

/-! ### `ChassisControllerIntegrated` -/

namespace ChassisControllerIntegrated

theorem new_ok {α : Type} [Zero α] [DecidableEq α] (imodel : ChassisModel α)
    (ileftController irightController : AsyncPosIntegratedController α)
    (igearset : GearsetRatioPair α) (iscales : ChassisScales α) (h : igearset.ratio ≠ 0) :
    (new imodel ileftController irightController igearset iscales).2 = Except.ok
      { model := imodel, leftController := ileftController, rightController := irightController,
        lastTarget := 0, gearRatio := igearset.ratio, straightScale := iscales.straight,
        turnScale := iscales.turn,
        events := [Event.setGearing igearset.internalGearset,
          Event.setEncoderUnits encoderUnits.degrees] } := by
  simp only [new, if_neg h]

theorem new_zero {α : Type} [Zero α] [DecidableEq α] (imodel : ChassisModel α)
    (ileftController irightController : AsyncPosIntegratedController α)
    (igearset : GearsetRatioPair α) (iscales : ChassisScales α) (h : igearset.ratio = 0) :
    new imodel ileftController irightController igearset iscales
      = ([Event.loggerError zeroGearRatioMessage],
          Except.error (Exception.invalid_argument zeroGearRatioMessage)) := by
  simp only [new, if_pos h]

/-- Claim C8.  The constructor throws exactly when the ratio of the gearset is `0`, and builds
an object exactly when it is not.  When it throws, the exception is `std::invalid_argument` and
the only call made on a collaborator is the error line written to the logger: no controller was
reset, enabled or given a target and the chassis model received no call. -/
theorem new_throws_iff {α : Type} [Field α] [DecidableEq α] (imodel : ChassisModel α)
    (ileftController irightController : AsyncPosIntegratedController α)
    (igearset : GearsetRatioPair α) (iscales : ChassisScales α) :
    ((∃ e : Exception,
        (new imodel ileftController irightController igearset iscales).2 = Except.error e)
      ↔ igearset.ratio = 0)
    ∧ ((∃ e : Exception,
        (new imodel ileftController irightController igearset iscales).2 = Except.error e)
      ↔ ((new imodel ileftController irightController igearset iscales).2
            = Except.error (Exception.invalid_argument zeroGearRatioMessage)
          ∧ (new imodel ileftController irightController igearset iscales).1
            = [Event.loggerError zeroGearRatioMessage]))
    ∧ ((∃ c : ChassisControllerIntegrated α,
        (new imodel ileftController irightController igearset iscales).2 = Except.ok c)
      ↔ igearset.ratio ≠ 0) := by
  by_cases h : igearset.ratio = 0
  · have h0 := new_zero imodel ileftController irightController igearset iscales h
    rw [h0]
    refine ⟨⟨fun _ => h, fun _ => ⟨_, rfl⟩⟩, ⟨fun _ => ⟨rfl, rfl⟩, fun _ => ⟨_, rfl⟩⟩,
      ⟨?_, fun hne => absurd h hne⟩⟩
    rintro ⟨c, hc⟩
    cases hc
  · have hc := new_ok imodel ileftController irightController igearset iscales h
    rw [hc]
    refine ⟨⟨?_, fun h0 => absurd h0 h⟩, ⟨?_, ?_⟩, ⟨fun _ => h, fun _ => ⟨_, rfl⟩⟩⟩
    · rintro ⟨e, he⟩
      cases he
    · rintro ⟨e, he⟩
      cases he
    · rintro ⟨he, _⟩
      cases he

theorem moveDistanceAsync_left {α : Type} [Field α] (c : ChassisControllerIntegrated α)
    (itarget : QLength α) :
    (c.moveDistanceAsync itarget).leftController.target
      = itarget.convert meter * c.straightScale * c.gearRatio + c.model.sensorVals.1 := rfl

theorem moveDistanceAsync_right {α : Type} [Field α] (c : ChassisControllerIntegrated α)
    (itarget : QLength α) :
    (c.moveDistanceAsync itarget).rightController.target
      = itarget.convert meter * c.straightScale * c.gearRatio + c.model.sensorVals.2 := rfl

/-- Claim C9.  `moveDistanceAsync(QLength)`: for every controller state and every length, whose
measure in meters `itarget.convert meter` is its held value, the call makes, in this order, the
calls reset left, reset right, enable left, enable right, read the encoders, set the left
target, set the right target (with the two logger lines); afterwards both controllers are enabled
and have been reset once more, the left target is `L * straightScale * gearRatio + encL` and the
right target is `L * straightScale * gearRatio + encR`.  In particular, with scales built from
`tpr = 360`, wheel diameter 4 in and track 12 in, and gear ratio 1, `moveDistanceAsync(1_m)`
sets each target to `360 / (0.1016 * pi)` plus the encoder reading of that side. -/
theorem moveDistanceAsync_targets :
    (∀ (c : ChassisControllerIntegrated ℝ) (itarget : QLength ℝ),
      itarget.convert meter = itarget.value
      ∧ (c.moveDistanceAsync itarget).leftController.target
          = itarget.convert meter * c.straightScale * c.gearRatio + c.model.sensorVals.1
      ∧ (c.moveDistanceAsync itarget).rightController.target
          = itarget.convert meter * c.straightScale * c.gearRatio + c.model.sensorVals.2
      ∧ (c.moveDistanceAsync itarget).leftController.disabled = false
      ∧ (c.moveDistanceAsync itarget).rightController.disabled = false
      ∧ (c.moveDistanceAsync itarget).leftController.resets = c.leftController.resets + 1
      ∧ (c.moveDistanceAsync itarget).rightController.resets = c.rightController.resets + 1
      ∧ (c.moveDistanceAsync itarget).events = c.events ++
          [Event.loggerInfo "ChassisControllerIntegrated: moving "
              (some (itarget.convert meter)) " meters",
            Event.reset Side.left, Event.reset Side.right,
            Event.flipDisable Side.left false, Event.flipDisable Side.right false,
            Event.loggerInfo "ChassisControllerIntegrated: moving "
              (some (itarget.convert meter * c.straightScale * c.gearRatio)) " motor degrees",
            Event.getSensorVals,
            Event.setTarget Side.left
              (itarget.convert meter * c.straightScale * c.gearRatio + c.model.sensorVals.1),
            Event.setTarget Side.right
              (itarget.convert meter * c.straightScale * c.gearRatio + c.model.sensorVals.2)])
    ∧ (∀ (imodel : ChassisModel ℝ)
        (ileftController irightController : AsyncPosIntegratedController ℝ) (gearset : Nat),
      ∃ (iscales : ChassisScales ℝ) (c : ChassisControllerIntegrated ℝ),
        (ChassisScales.fromMeasurements Real.pi
            [QLength.scale 4 inch, QLength.scale 12 inch] 360).2 = Except.ok iscales
        ∧ (new imodel ileftController irightController
            { internalGearset := gearset, ratio := 1 } iscales).2 = Except.ok c
        ∧ (c.moveDistanceAsync meter).leftController.target
            = 360 / (0.1016 * Real.pi) + imodel.sensorVals.1
        ∧ (c.moveDistanceAsync meter).rightController.target
            = 360 / (0.1016 * Real.pi) + imodel.sensorVals.2) := by
  constructor
  · intro c itarget
    refine ⟨by simp [QLength.convert, meter], rfl, rfl, rfl, rfl, rfl, rfl, ?_⟩
    simp [moveDistanceAsync, emit, reset, flipDisable, setTarget, getSensorVals]
  · intro imodel il ir gearset
    refine ⟨_, _, ChassisScales.fromMeasurements_pair Real.pi _ _ 360,
      new_ok imodel il ir _ _ (one_ne_zero (α := ℝ)), ?_, ?_⟩
    · rw [moveDistanceAsync_left]
      simp only [QLength.convert, QLength.scale, meter, inch]
      norm_num
    · rw [moveDistanceAsync_right]
      simp only [QLength.convert, QLength.scale, meter, inch]
      norm_num

/-- Claim C10.  `turnAngleAsync(QAngle)`: for every controller state and every angle, with
`A = idegTarget.convert degree` its measure in degrees, the call makes, in this order, the calls
reset left, reset right, enable left, enable right, read the encoders, set the left target, set
the right target (with the two logger lines); afterwards both controllers are enabled and have
been reset once more, the left target is `A * turnScale * gearRatio + encL`, the right target is
`-(A * turnScale * gearRatio) + encR`, and the two deltas from the readings sum to zero. -/
theorem turnAngleAsync_targets (degree : QAngle ℝ) (c : ChassisControllerIntegrated ℝ)
    (idegTarget : QAngle ℝ) :
    (c.turnAngleAsync degree idegTarget).leftController.target
        = idegTarget.convert degree * c.turnScale * c.gearRatio + c.model.sensorVals.1
    ∧ (c.turnAngleAsync degree idegTarget).rightController.target
        = -(idegTarget.convert degree * c.turnScale * c.gearRatio) + c.model.sensorVals.2
    ∧ ((c.turnAngleAsync degree idegTarget).leftController.target - c.model.sensorVals.1)
        + ((c.turnAngleAsync degree idegTarget).rightController.target - c.model.sensorVals.2)
        = 0
    ∧ (c.turnAngleAsync degree idegTarget).leftController.disabled = false
    ∧ (c.turnAngleAsync degree idegTarget).rightController.disabled = false
    ∧ (c.turnAngleAsync degree idegTarget).leftController.resets = c.leftController.resets + 1
    ∧ (c.turnAngleAsync degree idegTarget).rightController.resets
        = c.rightController.resets + 1
    ∧ (c.turnAngleAsync degree idegTarget).events = c.events ++
        [Event.loggerInfo "ChassisControllerIntegrated: turning "
            (some (idegTarget.convert degree)) " degrees",
          Event.reset Side.left, Event.reset Side.right,
          Event.flipDisable Side.left false, Event.flipDisable Side.right false,
          Event.loggerInfo "ChassisControllerIntegrated: turning "
            (some (idegTarget.convert degree * c.turnScale * c.gearRatio)) " motor degrees",
          Event.getSensorVals,
          Event.setTarget Side.left
            (idegTarget.convert degree * c.turnScale * c.gearRatio + c.model.sensorVals.1),
          Event.setTarget Side.right
            (-(idegTarget.convert degree * c.turnScale * c.gearRatio)
              + c.model.sensorVals.2)] := by
  have hl : (c.turnAngleAsync degree idegTarget).leftController.target
      = idegTarget.convert degree * c.turnScale * c.gearRatio + c.model.sensorVals.1 := rfl
  have hr : (c.turnAngleAsync degree idegTarget).rightController.target
      = -(idegTarget.convert degree * c.turnScale * c.gearRatio) + c.model.sensorVals.2 := by
    show -1 * (idegTarget.convert degree * c.turnScale * c.gearRatio) + c.model.sensorVals.2 = _
    rw [neg_one_mul]
  refine ⟨hl, hr, ?_, rfl, rfl, rfl, rfl, ?_⟩
  · rw [hl, hr]
    ring
  · simp [turnAngleAsync, emit, reset, flipDisable, setTarget, getSensorVals]

end ChassisControllerIntegrated

/-! ### `ChassisControllerIntegrated`: scalar overloads, settling and stopping -/

namespace ChassisControllerIntegrated

theorem turnAngleAsync_left {α : Type} [Field α] (degree : QAngle α)
    (c : ChassisControllerIntegrated α) (idegTarget : QAngle α) :
    (c.turnAngleAsync degree idegTarget).leftController.target
      = idegTarget.convert degree * c.turnScale * c.gearRatio + c.model.sensorVals.1 := rfl

theorem turnAngleAsync_right {α : Type} [Field α] (degree : QAngle α)
    (c : ChassisControllerIntegrated α) (idegTarget : QAngle α) :
    (c.turnAngleAsync degree idegTarget).rightController.target
      = -1 * (idegTarget.convert degree * c.turnScale * c.gearRatio)
        + c.model.sensorVals.2 := rfl

/-- Claim C11.  The scalar overloads are the unit-typed overloads called with `x / scale` in the
canonical unit (`meter`, `degree`), and over the reals the scale divides out: for every raw value
`x` and every gear ratio, if `straightScale` is not `0` then `moveDistanceAsync(double x)` sets
the targets to `x * gearRatio + encL` and `x * gearRatio + encR`, and if `turnScale` is not `0`
(the unit `degree` of the units library being a non-zero angle) then `turnAngleAsync(double x)`
sets them to `x * gearRatio + encL` and `-(x * gearRatio) + encR`. -/
theorem scalar_overloads_cancel_scale (degree : QAngle ℝ) (c : ChassisControllerIntegrated ℝ)
    (x : ℝ) :
    c.moveDistanceAsyncDouble x
        = c.moveDistanceAsync (QLength.scale (x / c.straightScale) meter)
    ∧ c.turnAngleAsyncDouble degree x
        = c.turnAngleAsync degree (QAngle.scale (x / c.turnScale) degree)
    ∧ (c.straightScale ≠ 0 →
        (c.moveDistanceAsyncDouble x).leftController.target
            = x * c.gearRatio + c.model.sensorVals.1
        ∧ (c.moveDistanceAsyncDouble x).rightController.target
            = x * c.gearRatio + c.model.sensorVals.2)
    ∧ (c.turnScale ≠ 0 → degree.value ≠ 0 →
        (c.turnAngleAsyncDouble degree x).leftController.target
            = x * c.gearRatio + c.model.sensorVals.1
        ∧ (c.turnAngleAsyncDouble degree x).rightController.target
            = -(x * c.gearRatio) + c.model.sensorVals.2) := by
  refine ⟨rfl, rfl, ?_, ?_⟩
  · intro hs
    have hx : (QLength.scale (x / c.straightScale) meter).convert meter * c.straightScale
        = x := by
      simp only [QLength.scale, QLength.convert, meter]
      field_simp
    unfold moveDistanceAsyncDouble
    rw [moveDistanceAsync_left, moveDistanceAsync_right, hx]
    exact ⟨rfl, rfl⟩
  · intro ht hd
    have hx : (QAngle.scale (x / c.turnScale) degree).convert degree * c.turnScale = x := by
      simp only [QAngle.scale, QAngle.convert]
      field_simp
      ring
    unfold turnAngleAsyncDouble
    rw [turnAngleAsync_left, turnAngleAsync_right, hx, neg_one_mul]
    exact ⟨rfl, rfl⟩

/-- Witness of C11: the example state (scales 2 and 3, gear ratio 5, encoder readings 7 and
11), `degree` of value 1, raw value 4. -/
theorem scalar_overloads_cancel_scale_witness :
    (exampleChassis ℝ).straightScale ≠ 0 ∧ (exampleChassis ℝ).turnScale ≠ 0
    ∧ ({ value := 1 } : QAngle ℝ).value ≠ 0
    ∧ ((exampleChassis ℝ).moveDistanceAsyncDouble 4).leftController.target = 4 * 5 + 7
    ∧ ((exampleChassis ℝ).turnAngleAsyncDouble ({ value := 1 } : QAngle ℝ)
        4).rightController.target
        = -(4 * 5) + 11 :=
  ⟨by norm_num [exampleChassis], by norm_num [exampleChassis], by norm_num,
    ((scalar_overloads_cancel_scale { value := 1 } (exampleChassis ℝ) 4).2.2.1
      (by norm_num [exampleChassis])).1,
    ((scalar_overloads_cancel_scale { value := 1 } (exampleChassis ℝ) 4).2.2.2
      (by norm_num [exampleChassis]) (by norm_num)).2⟩

theorem waitLoop_unsettled {α : Type} (pre : List (Bool × Bool))
    (hpre : ∀ o ∈ pre, o ≠ (true, true)) (c : ChassisControllerIntegrated α) :
    c.waitLoop pre = none := by
  induction pre generalizing c with
  | nil => rfl
  | cons o pre ih =>
    obtain ⟨l, r⟩ := o
    have ho : (l, r) ≠ (true, true) := hpre _ (List.mem_cons_self _ _)
    have hlr : (l && r) = false := by
      cases l <;> cases r <;> simp at ho ⊢
    simp only [waitLoop, hlr, Bool.not_false, if_true]
    exact ih (fun o h => hpre o (List.mem_cons_of_mem _ h)) _

theorem waitLoop_settles {α : Type} (pre post : List (Bool × Bool))
    (hpre : ∀ o ∈ pre, o ≠ (true, true)) (c : ChassisControllerIntegrated α) :
    c.waitLoop (pre ++ (true, true) :: post)
      = some { c with events := c.events
          ++ (pre.flatMap (fun o => pollEvents o ++ [Event.delayUntil 10])
            ++ [Event.isSettled Side.left true, Event.isSettled Side.right true]) } := by
  induction pre generalizing c with
  | nil => simp [waitLoop, emit]
  | cons o pre ih =>
    obtain ⟨l, r⟩ := o
    have ho : (l, r) ≠ (true, true) := hpre _ (List.mem_cons_self _ _)
    have hlr : (l && r) = false := by
      cases l <;> cases r <;> simp at ho ⊢
    simp only [List.cons_append, waitLoop, hlr, Bool.not_false, if_true, List.append_eq]
    rw [ih (fun o h => hpre o (List.mem_cons_of_mem _ h))]
    cases l <;> simp [emit, pollEvents, List.flatMap_cons]

theorem countP_delay_polls {α : Type} (pre : List (Bool × Bool)) :
    (pre.flatMap (fun o => (pollEvents o ++ [Event.delayUntil 10] : List (Event α)))).countP
      Event.isDelayUntil = pre.length := by
  induction pre with
  | nil => rfl
  | cons o pre ih =>
    obtain ⟨l, r⟩ := o
    rw [List.flatMap_cons, List.countP_append, ih]
    cases l <;> simp [pollEvents, Event.isDelayUntil, List.countP_cons] <;> omega

theorem countP_disable_polls {α : Type} (s : Side) (pre : List (Bool × Bool)) :
    (pre.flatMap (fun o => (pollEvents o ++ [Event.delayUntil 10] : List (Event α)))).countP
      (Event.isDisable s) = 0 := by
  induction pre with
  | nil => rfl
  | cons o pre ih =>
    obtain ⟨l, r⟩ := o
    rw [List.flatMap_cons, List.countP_append, ih]
    cases l <;> simp [pollEvents, Event.isDisable, List.countP_cons]

theorem countP_stop_polls {α : Type} (pre : List (Bool × Bool)) :
    (pre.flatMap (fun o => (pollEvents o ++ [Event.delayUntil 10] : List (Event α)))).countP
      Event.isModelStop = 0 := by
  induction pre with
  | nil => rfl
  | cons o pre ih =>
    obtain ⟨l, r⟩ := o
    rw [List.flatMap_cons, List.countP_append, ih]
    cases l <;> simp [pollEvents, Event.isModelStop, List.countP_cons]

theorem waitUntilSettled_settles {α : Type} (pre post : List (Bool × Bool))
    (hpre : ∀ o ∈ pre, o ≠ (true, true)) (c : ChassisControllerIntegrated α) :
    c.waitUntilSettled (pre ++ (true, true) :: post)
      = some { c with
          model := { c.model with stops := c.model.stops + 1 },
          leftController := c.leftController.flipDisable true,
          rightController := c.rightController.flipDisable true,
          events := c.events
            ++ Event.loggerInfo "ChassisControllerIntegrated: Waiting to settle" none ""
              :: (pre.flatMap (fun o => pollEvents o ++ [Event.delayUntil 10])
                ++ [Event.isSettled Side.left true, Event.isSettled Side.right true,
                    Event.flipDisable Side.left true, Event.flipDisable Side.right true,
                    Event.modelStop,
                    Event.loggerInfo "ChassisControllerIntegrated: Done waiting to settle"
                      none ""]) } := by
  unfold waitUntilSettled
  simp only [waitLoop_settles pre post hpre]
  simp [emit, flipDisable, modelStop]

/-- Claim C12.  `waitUntilSettled`: for every history of settle observations whose first poll
with both controllers settled is poll number `k` (from 0), the call returns; the calls it makes
are the opening logger line, then for each of the `k` polls before it the `isSettled` queries of
that poll followed by one `delayUntil(10 ms)`, then the two queries of poll `k` (both settled),
then `flipDisable(true)` on the left controller, `flipDisable(true)` on the right controller,
`model->stop()` and the closing logger line.  So there are exactly `k` delays, each controller is
disabled once and the model is stopped once, whatever `k` is; and on a history in which no poll
has both controllers settled the call does not return. -/
theorem waitUntilSettled_polls {α : Type} (c : ChassisControllerIntegrated α)
    (obs : List (Bool × Bool)) (k : Nat) (hk : obs[k]? = some (true, true))
    (hfirst : ∀ i, i < k → obs[i]? ≠ some (true, true)) :
    ∃ c' : ChassisControllerIntegrated α, ∃ calls : List (Event α),
      c.waitUntilSettled obs = some c'
      ∧ c'.events = c.events ++ calls
      ∧ calls = Event.loggerInfo "ChassisControllerIntegrated: Waiting to settle" none ""
          :: ((obs.take k).flatMap (fun o => pollEvents o ++ [Event.delayUntil 10])
            ++ [Event.isSettled Side.left true, Event.isSettled Side.right true,
                Event.flipDisable Side.left true, Event.flipDisable Side.right true,
                Event.modelStop,
                Event.loggerInfo "ChassisControllerIntegrated: Done waiting to settle"
                  none ""])
      ∧ calls.countP Event.isDelayUntil = k
      ∧ calls.countP (Event.isDisable Side.left) = 1
      ∧ calls.countP (Event.isDisable Side.right) = 1
      ∧ calls.countP Event.isModelStop = 1
      ∧ c'.leftController.disabled = true ∧ c'.rightController.disabled = true
      ∧ c'.model.stops = c.model.stops + 1
      ∧ (∀ unsettled : List (Bool × Bool), (∀ o ∈ unsettled, o ≠ (true, true)) →
          c.waitUntilSettled unsettled = none) := by
  have hlt : k < obs.length := by
    rcases Nat.lt_or_ge k obs.length with h | h
    · exact h
    · rw [List.getElem?_eq_none h] at hk
      cases hk
  have hsplit : obs = obs.take k ++ (true, true) :: obs.drop (k + 1) := by
    have h1 : obs[k] = (true, true) := by
      rw [List.getElem?_eq_getElem hlt] at hk
      exact Option.some.inj hk
    rw [← h1, ← List.drop_eq_getElem_cons hlt, List.take_append_drop]
  have hpre : ∀ o ∈ obs.take k, o ≠ (true, true) := by
    intro o ho heq
    obtain ⟨i, hi, hio⟩ := List.getElem_of_mem ho
    have hik : i < k := by
      rw [List.length_take] at hi
      omega
    rw [List.getElem_take] at hio
    apply hfirst i hik
    rw [List.getElem?_eq_getElem (by omega), hio, heq]
  have hres := waitUntilSettled_settles (obs.take k) (obs.drop (k + 1)) hpre c
  rw [← hsplit] at hres
  have hlen : (obs.take k).length = k := by
    rw [List.length_take]
    omega
  refine ⟨_, _, hres, rfl, rfl, ?_, ?_, ?_, ?_, rfl, rfl, rfl, ?_⟩
  · rw [List.countP_cons, List.countP_append, countP_delay_polls, hlen]
    simp [Event.isDelayUntil, List.countP_cons]
  · rw [List.countP_cons, List.countP_append, countP_disable_polls]
    simp [Event.isDisable, List.countP_cons]
  · rw [List.countP_cons, List.countP_append, countP_disable_polls]
    simp [Event.isDisable, List.countP_cons]
  · rw [List.countP_cons, List.countP_append, countP_stop_polls]
    simp [Event.isModelStop, List.countP_cons]
  · intro unsettled hu
    unfold waitUntilSettled
    simp only [waitLoop_unsettled unsettled hu]

/-- Witness of C12: the left controller settles at the second poll, both at the third. -/
theorem waitUntilSettled_polls_witness :
    ([(false, true), (true, false), (true, true), (false, false)] : List (Bool × Bool))[2]?
      = some (true, true)
    ∧ ∃ c' : ChassisControllerIntegrated ℝ,
        (exampleChassis ℝ).waitUntilSettled
          [(false, true), (true, false), (true, true), (false, false)] = some c'
        ∧ (c'.events.countP Event.isDelayUntil = 2)
        ∧ c'.model.stops = 1 := by
  refine ⟨rfl, ?_⟩
  obtain ⟨c', calls, h1, h2, _, h4, _, _, _, _, _, h10, _⟩ :=
    waitUntilSettled_polls (exampleChassis ℝ)
      [(false, true), (true, false), (true, true), (false, false)] 2 rfl
      (by
        intro i hi
        match i, hi with
        | 0, _ => simp
        | 1, _ => simp)
  refine ⟨c', h1, ?_, ?_⟩
  · rw [h2]
    simpa [exampleChassis] using h4
  · simpa [exampleChassis] using h10

/-- Claim C15.  `stop()`: from every state of the controller, `stop()` calls `flipDisable(true)`
on the left controller, then on the right controller, then the base class `stop()`, and nothing
else; afterwards both controllers are disabled, and neither target (nor the reset count of either
controller, the model or the ratios) has changed. -/
theorem stop_disables_both {α : Type} (c : ChassisControllerIntegrated α) :
    c.stop.events = c.events
        ++ [Event.flipDisable Side.left true, Event.flipDisable Side.right true, Event.baseStop]
    ∧ c.stop.leftController.disabled = true ∧ c.stop.rightController.disabled = true
    ∧ c.stop.leftController.target = c.leftController.target
    ∧ c.stop.rightController.target = c.rightController.target
    ∧ c.stop.leftController.resets = c.leftController.resets
    ∧ c.stop.rightController.resets = c.rightController.resets
    ∧ c.stop.model = c.model
    ∧ c.stop.straightScale = c.straightScale ∧ c.stop.turnScale = c.turnScale
    ∧ c.stop.gearRatio = c.gearRatio := by
  refine ⟨?_, rfl, rfl, rfl, rfl, rfl, rfl, rfl, rfl, rfl, rfl⟩
  simp [stop, emit, flipDisable]

theorem waitLoop_frame {α : Type} (obs : List (Bool × Bool))
    (c c' : ChassisControllerIntegrated α) (h : c.waitLoop obs = some c') :
    ∃ calls : List (Event α), c' = { c with events := c.events ++ calls } := by
  induction obs generalizing c with
  | nil => cases h
  | cons o obs ih =>
    obtain ⟨l, r⟩ := o
    simp only [waitLoop] at h
    split at h
    · obtain ⟨calls, hc⟩ := ih _ h
      rw [hc]
      cases l
      · exact ⟨Event.isSettled Side.left false :: Event.delayUntil 10 :: calls, by simp [emit]⟩
      · exact ⟨Event.isSettled Side.left true :: Event.isSettled Side.right r
          :: Event.delayUntil 10 :: calls, by simp [emit]⟩
    · have hc := Option.some.inj h
      rw [← hc]
      cases l
      · exact ⟨[Event.isSettled Side.left false], by simp [emit]⟩
      · exact ⟨[Event.isSettled Side.left true, Event.isSettled Side.right r], by simp [emit]⟩

theorem waitUntilSettled_frame {α : Type} (obs : List (Bool × Bool))
    (c c' : ChassisControllerIntegrated α) (h : c.waitUntilSettled obs = some c') :
    c'.ratios = c.ratios ∧ c'.lastTarget = c.lastTarget
    ∧ c'.model.sensorVals = c.model.sensorVals
    ∧ c'.leftController.target = c.leftController.target
    ∧ c'.rightController.target = c.rightController.target := by
  unfold waitUntilSettled at h
  cases hw : (c.emit
      (Event.loggerInfo "ChassisControllerIntegrated: Waiting to settle" none "")).waitLoop
      obs with
  | none =>
    simp only [hw] at h
    cases h
  | some c1 =>
    simp only [hw] at h
    obtain ⟨calls, hcalls⟩ := waitLoop_frame obs _ c1 hw
    have hc := Option.some.inj h
    rw [← hc, hcalls]
    exact ⟨rfl, rfl, rfl, rfl, rfl⟩

/-- Claim C17.  The motion calls leave the owned ratios unchanged: for every state of the
controller, after `moveDistanceAsync` and `turnAngleAsync` (both overloads of each), after
`waitUntilSettled` (whenever it returns) and after `stop`, the stored `straightScale`,
`turnScale` and `gearRatio` are what they were before; so are `lastTarget` and the encoder
readings of the model, and `waitUntilSettled` and `stop` leave the two targets as they were. -/
theorem motion_calls_keep_ratios {α : Type} [Field α] (degree : QAngle α)
    (c : ChassisControllerIntegrated α) (itarget : QLength α) (idegTarget : QAngle α)
    (x y : α) (obs : List (Bool × Bool)) (c' : ChassisControllerIntegrated α)
    (h : c.waitUntilSettled obs = some c') :
    ((c.moveDistanceAsync itarget).ratios = c.ratios
      ∧ (c.moveDistanceAsync itarget).lastTarget = c.lastTarget
      ∧ (c.moveDistanceAsync itarget).model = c.model)
    ∧ ((c.moveDistanceAsyncDouble x).ratios = c.ratios
      ∧ (c.moveDistanceAsyncDouble x).lastTarget = c.lastTarget
      ∧ (c.moveDistanceAsyncDouble x).model = c.model)
    ∧ ((c.turnAngleAsync degree idegTarget).ratios = c.ratios
      ∧ (c.turnAngleAsync degree idegTarget).lastTarget = c.lastTarget
      ∧ (c.turnAngleAsync degree idegTarget).model = c.model)
    ∧ ((c.turnAngleAsyncDouble degree y).ratios = c.ratios
      ∧ (c.turnAngleAsyncDouble degree y).lastTarget = c.lastTarget
      ∧ (c.turnAngleAsyncDouble degree y).model = c.model)
    ∧ (c'.ratios = c.ratios ∧ c'.lastTarget = c.lastTarget
      ∧ c'.model.sensorVals = c.model.sensorVals
      ∧ c'.leftController.target = c.leftController.target
      ∧ c'.rightController.target = c.rightController.target)
    ∧ (c.stop.ratios = c.ratios ∧ c.stop.lastTarget = c.lastTarget ∧ c.stop.model = c.model
      ∧ c.stop.leftController.target = c.leftController.target
      ∧ c.stop.rightController.target = c.rightController.target) :=
  ⟨⟨rfl, rfl, rfl⟩, ⟨rfl, rfl, rfl⟩, ⟨rfl, rfl, rfl⟩, ⟨rfl, rfl, rfl⟩,
    waitUntilSettled_frame obs c c' h, ⟨rfl, rfl, rfl, rfl, rfl⟩⟩

/-- Witness of C17: the example state, with both controllers settled at the first poll. -/
theorem motion_calls_keep_ratios_witness :
    ∃ c' : ChassisControllerIntegrated ℝ,
      (exampleChassis ℝ).waitUntilSettled [(true, true)] = some c'
      ∧ c'.ratios = (exampleChassis ℝ).ratios
      ∧ ((exampleChassis ℝ).moveDistanceAsync meter).ratios = (exampleChassis ℝ).ratios
      ∧ (exampleChassis ℝ).stop.ratios = (exampleChassis ℝ).ratios := by
  have hs := waitUntilSettled_settles [] [] (fun _ h => absurd h (List.not_mem_nil _))
    (exampleChassis ℝ)
  have hf := motion_calls_keep_ratios ({ value := 1 } : QAngle ℝ) (exampleChassis ℝ) meter
    { value := 1 } 0 0 [(true, true)] _ hs
  exact ⟨_, hs, hf.2.2.2.2.1.1, hf.1.1, hf.2.2.2.2.2.1⟩

end ChassisControllerIntegrated

/-! ### `AverageFilter`: warm-up -/

namespace AverageFilter

theorem window_warm_up {α : Type} [AddMonoid α] (n : Nat) (xs : List α) (h : xs.length ≤ n) :
    ((List.replicate n (0 : α) ++ xs).drop xs.length).sum = xs.sum := by
  rw [List.drop_append_of_le_length (by simpa using h), List.sum_append, List.drop_replicate,
    List.sum_replicate, smul_zero, zero_add]

theorem getOutput_eq_window {α : Type} [Field α] (n : Nat) (hn : 1 ≤ n) (xs : List α) :
    (filterAll (AverageFilter.new α n) xs).1.getOutput
      = ((List.replicate n (0 : α) ++ xs).drop xs.length).sum / (n : α) := by
  rcases List.eq_nil_or_concat xs with h | ⟨ys, y, h⟩
  · subst h
    simp [filterAll, AverageFilter.new, getOutput]
  · rw [List.concat_eq_append] at h
    subst h
    exact ((Inv.init (α := α) n hn).feed_snoc_value ys y).2

/-- Claim C16.  Warm-up of the average filter: for every `n ≥ 1` and every sequence `xs` of
fewer than `n` real readings fed to a freshly constructed `AverageFilter<n>`, `getOutput` after
the last reading, and the value the last `filter` call returned when there is one, is the sum of
the readings divided by `n` (the unfilled slots count as zero). -/
theorem filter_warm_up (n : Nat) (hn : 1 ≤ n) (xs : List ℝ) (hk : xs.length < n) :
    (filterAll (AverageFilter.new ℝ n) xs).1.getOutput = xs.sum / (n : ℝ)
    ∧ (filterAll (AverageFilter.new ℝ n) xs).2.getLast?
        = xs.getLast?.map (fun _ => xs.sum / (n : ℝ)) := by
  have hout := getOutput_eq_window (α := ℝ) n hn xs
  rw [window_warm_up n xs (by omega)] at hout
  refine ⟨hout, ?_⟩
  rcases List.eq_nil_or_concat xs with h | ⟨ys, y, h⟩
  · subst h
    rfl
  · rw [List.concat_eq_append] at h
    subst h
    have hl := ((Inv.init (α := ℝ) n hn).feed_snoc_value ys y).1
    rw [window_warm_up n _ (by omega)] at hl
    rw [hl]
    simp [AverageFilter.new]

/-- Witness of C16: one reading `4` into a 2-tap filter gives `4 / 2 = 2`, not the mean `4` of
the readings so far. -/
theorem filter_warm_up_witness :
    1 ≤ 2 ∧ ([4] : List ℝ).length < 2
    ∧ (filterAll (AverageFilter.new ℝ 2) [4]).1.getOutput = 2
    ∧ (filterAll (AverageFilter.new ℝ 2) [4]).1.getOutput ≠ ([4] : List ℝ).sum / 1 := by
  have h := (filter_warm_up 2 (by decide) [4] (by simp)).1
  refine ⟨by decide, by simp, ?_, ?_⟩
  · rw [h]
    norm_num
  · rw [h]
    norm_num

end AverageFilter

/-! ### `ChassisScales`: middle wheel -/

namespace ChassisScales

/-- Claim C18.  Middle-wheel defaults: the measurement-form constructor on exactly two
measurements `[d, w]` builds an object with `middleWheelDistance` of value 0 (`0_m`),
`middleWheelDiameter = d` and `middle = straight`; the ratio-form constructor on exactly two
ratios `[s, t]` builds an object with `middle = s`, `middleWheelDistance` of value 0 and
`middleWheelDiameter = wheelDiameter`. -/
theorem middle_wheel_defaults {α : Type} [Field α] (pi : α) (d w : QLength α) (s t : α)
    (tpr : Int) :
    ∃ m r : ChassisScales α,
      (fromMeasurements pi [d, w] tpr).2 = Except.ok m
      ∧ m.middleWheelDistance.value = 0 ∧ m.middleWheelDiameter = d ∧ m.middle = m.straight
      ∧ (fromRatios pi [s, t] tpr).2 = Except.ok r
      ∧ r.middle = s ∧ r.middleWheelDistance.value = 0
      ∧ r.middleWheelDiameter = r.wheelDiameter := by
  refine ⟨_, _, fromMeasurements_pair pi d w tpr, ?_, rfl, rfl, fromRatios_pair pi s t tpr,
    rfl, ?_, rfl⟩
  · simp [QLength.scale]
  · simp [QLength.scale]

end ChassisScales

/-! ### Stage vectors -/

namespace NestedComposableFilter

theorem foldl_push_back {α : Type} (l : List (Stage α)) (c : NestedComposableFilter α) :
    l.foldl (fun c elem => { c with filters := c.filters ++ [elem] }) c
      = { c with filters := c.filters ++ l } := by
  induction l generalizing c with
  | nil => simp
  | cons s l ih => simp [ih]

end NestedComposableFilter

/-! ### Nested `ComposableFilter` -/

theorem getLastD_map {β γ : Type} (g : β → γ) (l : List β) (a : β) :
    (l.map g).getLastD (g a) = g (l.getLastD a) := by
  induction l generalizing a with
  | nil => rfl
  | cons b l ih => rw [List.map_cons, List.getLastD_cons, List.getLastD_cons, ih]

theorem getLastD_append_cons {β : Type} (l₁ l₂ : List β) (b a : β) :
    (l₁ ++ b :: l₂).getLastD a = l₂.getLastD b := by
  induction l₁ generalizing a with
  | nil => rw [List.nil_append, List.getLastD_cons]
  | cons c l₁ ih => rw [List.cons_append, List.getLastD_cons, ih]

namespace FilterStore

theorem propagate_append {σ α : Type} (ps qs : List Nat) (w : FilterStore σ α) (prev : Nat) :
    propagate w prev (ps ++ qs) = propagate (propagate w prev ps) (ps.getLastD prev) qs := by
  induction ps generalizing w prev with
  | nil => rfl
  | cons p ps ih =>
    rw [List.cons_append, List.getLastD_cons]
    exact ih _ p

end FilterStore

namespace Stage

/-- The index loop of `ComposableFilter::filter` over entries that may be `ComposableFilter`
objects, started at index `pre.length + 1`, is the recursion `Stage.propagate`. -/
theorem foldl_range_eq_stage_propagate {σ α : Type} [Zero α] (ss pre : List (Stage α))
    (prev : Stage α) (w : FilterStore σ α) :
    (List.range' (pre.length + 1) ss.length).foldl
      (fun (st : List (Stage α) × FilterStore σ α) i =>
        (st.1.set i ((st.1.getD i (Stage.object 0)).filter st.2
            ((st.1.getD (i - 1) (Stage.object 0)).getOutput st.2)).1,
          ((st.1.getD i (Stage.object 0)).filter st.2
            ((st.1.getD (i - 1) (Stage.object 0)).getOutput st.2)).2.1))
      (pre ++ prev :: ss, w)
      = (pre ++ prev :: (propagate w prev ss).1, (propagate w prev ss).2) := by
  induction ss generalizing pre prev w with
  | nil => rfl
  | cons s ss ih =>
    rw [List.length_cons, List.range'_succ, List.foldl_cons]
    have h1 : (pre ++ prev :: s :: ss).getD (pre.length + 1) (Stage.object 0) = s := by
      rw [List.getD_eq_getElem?_getD, List.getElem?_append_right (by omega),
        Nat.add_sub_cancel_left]
      simp
    have h2 : (pre ++ prev :: s :: ss).getD (pre.length + 1 - 1) (Stage.object 0) = prev := by
      rw [List.getD_eq_getElem?_getD, List.getElem?_append_right (by omega),
        Nat.add_sub_cancel, Nat.sub_self]
      simp
    have h3 : ∀ x : Stage α, (pre ++ prev :: s :: ss).set (pre.length + 1) x
        = (pre ++ [prev]) ++ x :: ss := by
      intro x
      rw [List.set_append_right _ _ (by omega), Nat.add_sub_cancel_left]
      simp
    simp only [h1, h2, h3]
    have := ih (pre ++ [prev]) (s.filter w (prev.getOutput w)).1
      (s.filter w (prev.getOutput w)).2.1
    simp only [List.length_append, List.length_singleton] at this
    rw [this]
    simp [propagate]

theorem propagate_objects {σ α : Type} [Zero α] (hs : List Nat) (w : FilterStore σ α)
    (prev : Stage α) (q : Nat) (hq : prev.getOutput w = w.getOutput q) :
    propagate w prev (hs.map Stage.object)
      = (hs.map Stage.object, FilterStore.propagate w q hs) := by
  induction hs generalizing w prev q with
  | nil => rfl
  | cons h hs ih =>
    have := ih (w.filter h (w.getOutput q)).1 (Stage.object h) h rfl
    simp only [List.map_cons, propagate, Stage.filter, hq, this, FilterStore.propagate]

end Stage

namespace ComposableFilter

theorem foldl_push_back_nat {α : Type} (l : List Nat) (c : ComposableFilter α) :
    l.foldl (fun c elem => { c with filters := c.filters ++ [elem] }) c
      = { c with filters := c.filters ++ l } := by
  induction l generalizing c with
  | nil => simp
  | cons s l ih => simp [ih]

theorem ofList_eq {α : Type} [Zero α] (l : List Nat) :
    (ofList l : ComposableFilter α) = { filters := l, output := 0 } := by
  simp [ofList, foldl_push_back_nat, ComposableFilter.new]

end ComposableFilter

namespace NestedComposableFilter

theorem ofList_eq_mk {α : Type} [Zero α] (l : List (Stage α)) :
    (ofList l : NestedComposableFilter α) = { filters := l, output := 0 } := by
  simp [ofList, foldl_push_back]

theorem filter_cons_stage {σ α : Type} [Zero α] (c : NestedComposableFilter α)
    (w : FilterStore σ α) (r : α) (s : Stage α) (ss : List (Stage α))
    (hc : c.filters = s :: ss) :
    c.filter w r
      = ({ filters := (s.filter w r).1
              :: (Stage.propagate (s.filter w r).2.1 (s.filter w r).1 ss).1,
           output := ((Stage.propagate (s.filter w r).2.1 (s.filter w r).1 ss).1.getLastD
              (s.filter w r).1).getOutput
                (Stage.propagate (s.filter w r).2.1 (s.filter w r).1 ss).2 },
         (Stage.propagate (s.filter w r).2.1 (s.filter w r).1 ss).2,
         ((Stage.propagate (s.filter w r).2.1 (s.filter w r).1 ss).1.getLastD
              (s.filter w r).1).getOutput
                (Stage.propagate (s.filter w r).2.1 (s.filter w r).1 ss).2) := by
  have h := Stage.foldl_range_eq_stage_propagate ss [] (s.filter w r).1 (s.filter w r).2.1
  simp only [List.length_nil, List.nil_append, Nat.zero_add] at h
  unfold NestedComposableFilter.filter
  rw [hc, if_neg (by simp)]
  simp only [List.length_cons, Nat.add_sub_cancel, List.headD_cons, List.set_cons_zero]
  rw [h, List.getLastD_cons]

end NestedComposableFilter

namespace NestedComposableFilter

/-- One `filter` call on the nested filter and on the flat filter, from the same store: same
store afterwards, same result; the nested filter keeps its shape. -/
theorem filter_nested_flat {σ α : Type} [Zero α] (ci : ComposableFilter α) (f : Nat)
    (fs hs : List Nat) (hci : ci.filters = f :: fs) (out₁ out₂ : α) (w : FilterStore σ α)
    (r : α) :
    ∃ v : α,
      ({ filters := Stage.composable ci :: hs.map Stage.object, output := out₁ } :
          NestedComposableFilter α).filter w r
        = ({ filters := Stage.composable (ci.filter w r).1 :: hs.map Stage.object, output := v },
            (({ filters := (f :: fs) ++ hs, output := out₂ } : ComposableFilter α).filter
              w r).2.1, v)
      ∧ ({ filters := (f :: fs) ++ hs, output := out₂ } : ComposableFilter α).filter w r
        = ({ filters := (f :: fs) ++ hs, output := v },
            (({ filters := (f :: fs) ++ hs, output := out₂ } : ComposableFilter α).filter
              w r).2.1, v)
      ∧ (ci.filter w r).1.filters = f :: fs := by
  have hin := ComposableFilter.filter_cons ci w r f fs hci
  have hflat := ComposableFilter.filter_cons
    ({ filters := (f :: fs) ++ hs, output := out₂ } : ComposableFilter α) w r f (fs ++ hs) rfl
  have hnest := filter_cons_stage
    ({ filters := Stage.composable ci :: hs.map Stage.object, output := out₁ } :
      NestedComposableFilter α) w r (Stage.composable ci) (hs.map Stage.object) rfl
  have hprop := Stage.propagate_objects hs ((w.filter f r).1.propagate f fs)
    (Stage.composable (ci.filter w r).1) (fs.getLastD f) (by rw [hin]; rfl)
  have hstage : (Stage.composable ci).filter w r
      = (Stage.composable (ci.filter w r).1, (w.filter f r).1.propagate f fs,
          ((w.filter f r).1.propagate f fs).getOutput (fs.getLastD f)) := by
    simp only [Stage.filter, hin]
  rw [hstage] at hnest
  simp only [hprop] at hnest
  rw [hnest, hflat, FilterStore.propagate_append]
  have hlast : ((hs.map Stage.object).getLastD (Stage.composable (ci.filter w r).1)).getOutput
        (((w.filter f r).1.propagate f fs).propagate (fs.getLastD f) hs)
      = (((w.filter f r).1.propagate f fs).propagate (fs.getLastD f) hs).getOutput
          ((fs ++ hs).getLastD f) := by
    rcases List.eq_nil_or_concat hs with h | ⟨hs0, h, hh⟩
    · subst h
      simp only [List.map_nil, List.getLastD_nil, List.append_nil, FilterStore.propagate]
      rw [hin]
      rfl
    · rw [List.concat_eq_append] at hh
      subst hh
      rw [List.map_append, List.map_cons, List.map_nil, getLastD_append_cons,
        ← List.append_assoc, getLastD_append_cons]
      rfl
  rw [hlast]
  refine ⟨_, rfl, rfl, ?_⟩
  rw [hin]
  exact hci

/-- The same for any sequence of readings. -/
theorem filterAll_nested_flat {σ α : Type} [Zero α] (f : Nat) (fs hs : List Nat) (rs : List α)
    (ci : ComposableFilter α) (hci : ci.filters = f :: fs) (out₁ out₂ : α)
    (w : FilterStore σ α) :
    (({ filters := Stage.composable ci :: hs.map Stage.object, output := out₁ } :
        NestedComposableFilter α).filterAll w rs).2
      = (({ filters := (f :: fs) ++ hs, output := out₂ } : ComposableFilter α).filterAll
          w rs).2 := by
  induction rs generalizing ci out₁ out₂ w with
  | nil => rfl
  | cons r rs ih =>
    obtain ⟨v, h1, h2, h3⟩ := filter_nested_flat ci f fs hs hci out₁ out₂ w r
    simp only [NestedComposableFilter.filterAll, ComposableFilter.filterAll]
    rw [h1, h2]
    have := ih (ci.filter w r).1 h3 v v
      (({ filters := (f :: fs) ++ hs, output := out₂ } : ComposableFilter α).filter w r).2.1
    simp only at this ⊢
    rw [this]

/-- With an empty inner filter of output `o`, the nested filter over `h :: hs` does on the
reading `r` what the flat filter over `h :: hs` does on the reading `o`. -/
theorem filter_nested_empty {σ α : Type} [Zero α] (o : α) (h : Nat) (hs : List Nat)
    (out₁ out₂ : α) (w : FilterStore σ α) (r : α) :
    (({ filters := Stage.composable { filters := [], output := o }
          :: (h :: hs).map Stage.object, output := out₁ } :
        NestedComposableFilter α).filter w r).2
      = (({ filters := h :: hs, output := out₂ } : ComposableFilter α).filter w o).2 := by
  have hflat := ComposableFilter.filter_cons
    ({ filters := h :: hs, output := out₂ } : ComposableFilter α) w o h hs rfl
  have hnest := filter_cons_stage
    ({ filters := Stage.composable { filters := [], output := o }
          :: (h :: hs).map Stage.object, output := out₁ } :
      NestedComposableFilter α) w r (Stage.composable { filters := [], output := o })
      ((h :: hs).map Stage.object) rfl
  have hstage : (Stage.composable ({ filters := [], output := o } : ComposableFilter α)).filter
      w r = (Stage.composable { filters := [], output := o }, w, 0) := by
    simp [Stage.filter, ComposableFilter.filter]
  have hprop := Stage.propagate_objects hs (w.filter h o).1 (Stage.object h) h rfl
  have hgo : (Stage.composable ({ filters := [], output := o } : ComposableFilter α)).getOutput w
      = o := rfl
  have hfo : (Stage.object h : Stage α).filter w o = (Stage.object h, w.filter h o) := rfl
  rw [hstage] at hnest
  simp only [List.map_cons, Stage.propagate, hgo, hfo, hprop] at hnest
  simp only [List.map_cons]
  rw [hnest, hflat, List.getLastD_cons, getLastD_map]
  rfl

end NestedComposableFilter

namespace NestedComposableFilter

/-- Claim C20.  Flattening.  For every `ComposableFilter` `ci` with a non-empty stage list and
every list `hs` of further stages, the filter built over `[ci, h1, ..., hm]` and the filter built
over the flat list of the stages of `ci` followed by `h1, ..., hm`, run from the same store of
stage objects on the same sequence of readings, return the same outputs and leave the same
store.  For an empty inner filter this fails: the nested filter feeds the output of the inner
filter, `0` for a freshly constructed one, to `h1` where the flat filter feeds the reading; on a
one-tap average filter as `h1` and the reading `4` the two results are `0` and `4`. -/
theorem nested_eq_flat {σ : Type} (ci : ComposableFilter ℝ) (hs : List Nat)
    (hne : ci.filters ≠ []) (w : FilterStore σ ℝ) (rs : List ℝ) :
    ((ofList (Stage.composable ci :: hs.map Stage.object)).filterAll w rs).2.2
        = ((ComposableFilter.ofList (ci.filters ++ hs) : ComposableFilter ℝ).filterAll w rs).2.2
    ∧ ((ofList (Stage.composable ci :: hs.map Stage.object)).filterAll w rs).2.1
        = ((ComposableFilter.ofList (ci.filters ++ hs) : ComposableFilter ℝ).filterAll w rs).2.1
    ∧ (∀ (h : Nat) (hs' : List Nat) (v : FilterStore σ ℝ) (r : ℝ),
        ((ofList (Stage.composable (ComposableFilter.new ℝ)
            :: (h :: hs').map Stage.object)).filter v r).2
          = ((ComposableFilter.ofList (h :: hs') : ComposableFilter ℝ).filter v 0).2)
    ∧ ((ofList [Stage.composable (ComposableFilter.new ℝ), Stage.object 0]).filter
          ({ objs := fun _ => (AverageFilter.new ℝ 1).toFilter, calls := [] } :
            FilterStore (AverageFilter ℝ) ℝ) 4).2.2 = 0
    ∧ ((ComposableFilter.ofList [0] : ComposableFilter ℝ).filter
          ({ objs := fun _ => (AverageFilter.new ℝ 1).toFilter, calls := [] } :
            FilterStore (AverageFilter ℝ) ℝ) 4).2.2 = 4 := by
  obtain ⟨f, fs, hci⟩ := List.exists_cons_of_ne_nil hne
  have hall := filterAll_nested_flat f fs hs rs ci hci 0 0 w
  rw [ofList_eq_mk, ComposableFilter.ofList_eq, hci]
  refine ⟨congrArg Prod.snd hall, congrArg Prod.fst hall, ?_, ?_, ?_⟩
  · intro h hs' v r
    rw [ofList_eq_mk, ComposableFilter.ofList_eq]
    exact filter_nested_empty 0 h hs' 0 0 v r
  · rw [ofList_eq_mk]
    simp [NestedComposableFilter.filter, Stage.filter, Stage.getOutput, ComposableFilter.filter,
      ComposableFilter.new, ComposableFilter.getOutput, FilterStore.filter,
      FilterStore.getOutput, AverageFilter.toFilter, AverageFilter.filter, AverageFilter.new,
      AverageFilter.getOutput, Function.update, List.range_succ, List.range'_succ]
  · rw [ComposableFilter.ofList_eq]
    simp [ComposableFilter.filter, FilterStore.filter,
      FilterStore.getOutput, AverageFilter.toFilter, AverageFilter.filter, AverageFilter.new,
      AverageFilter.getOutput, Function.update, List.range_succ, List.range'_succ]

/-- Witness of C20: the inner filter over the stage at address 0, followed by the stage at
address 1, both 2-tap average filters, on the readings `4, 8`. -/
theorem nested_eq_flat_witness :
    ({ filters := [0], output := 0 } : ComposableFilter ℝ).filters ≠ []
    ∧ ((ofList (Stage.composable ({ filters := [0], output := 0 } : ComposableFilter ℝ)
          :: [1].map Stage.object)).filterAll
        ({ objs := fun _ => (AverageFilter.new ℝ 2).toFilter, calls := [] } :
          FilterStore (AverageFilter ℝ) ℝ) [4, 8]).2.2
      = ((ComposableFilter.ofList
          (({ filters := [0], output := 0 } : ComposableFilter ℝ).filters ++ [1]) :
            ComposableFilter ℝ).filterAll
        ({ objs := fun _ => (AverageFilter.new ℝ 2).toFilter, calls := [] } :
          FilterStore (AverageFilter ℝ) ℝ) [4, 8]).2.2 :=
  ⟨by simp, (nested_eq_flat ({ filters := [0], output := 0 } : ComposableFilter ℝ) [1]
    (by simp) ({ objs := fun _ => (AverageFilter.new ℝ 2).toFilter, calls := [] } :
          FilterStore (AverageFilter ℝ) ℝ) [4, 8]).1⟩

end NestedComposableFilter

/-! ### Stage vectors and the `Filter` contract -/

namespace FilterStore

end FilterStore

namespace ComposableFilter

end ComposableFilter

namespace Stage

end Stage

namespace NestedComposableFilter

end NestedComposableFilter

/-! ### `AsyncControllerBuilder` -/

namespace AsyncWrapper

/-- One tick after the builder was destroyed: `this` dangles. -/
theorem stepFunction_destroyed {σ τ α : Type} [Zero α] (a : AsyncWrapper α)
    (w : FilterStore σ α) (e : α) :
    a.stepFunction (none : Option (AsyncControllerBuilder τ α)) w e = none := rfl

end AsyncWrapper

namespace AsyncControllerBuilder

/-- Counterexample to C14: a builder with one lambda controller on which neither `input` nor
`output` was called; `build()` returns a wrapper and throws nothing. -/
theorem build_without_input_or_output :
    ((new 0 : AsyncControllerBuilder Unit ℝ).lambda (fun x => x)).m_input = none
    ∧ ((new 0 : AsyncControllerBuilder Unit ℝ).lambda (fun x => x)).m_output = none
    ∧ (∃ a : AsyncWrapper ℝ,
        ((new 0 : AsyncControllerBuilder Unit ℝ).lambda (fun x => x)).build = Except.ok a)
    ∧ ¬ ∃ e : Exception,
        ((new 0 : AsyncControllerBuilder Unit ℝ).lambda (fun x => x)).build = Except.error e := by
  refine ⟨rfl, rfl, ⟨_, rfl⟩, ?_⟩
  rintro ⟨e, he⟩
  cases he

/-- Claim C14, amended.  `build()` makes no check of the input or the output: for every builder,
also one on which no input or no output has been set, it throws nothing and returns a wrapper
whose input and output are the (possibly null) `m_input` and `m_output` of the builder. -/
theorem build_always_wraps {τ α : Type} [Zero α] (b : AsyncControllerBuilder τ α) :
    (∃ a : AsyncWrapper α,
      b.build = Except.ok a ∧ a.input = b.m_input ∧ a.output = b.m_output)
    ∧ ¬ ∃ e : Exception, b.build = Except.error e := by
  refine ⟨⟨_, rfl, rfl, rfl⟩, ?_⟩
  rintro ⟨e, he⟩
  cases he

end AsyncControllerBuilder

end okapi
